import Mathlib

/-!
Verification of the FIDL Rust/LLCPP binding templates and the EAPOL key-frame codec.

The development is a shallow embedding of the Go templates under
`tools/fidl/fidlgen_rust/codegen` (the Rust source they emit is modelled by the meaning of
the emitted `match` expressions, as a function of the declaration handed to the template),
of `tools/fidl/fidlgen_llcpp/codegen/fragment_method_unownedresult.tmpl.go`, and of
`go/src/wlan/eapol/definitions.go`.
-/

/-- Modelled from the spec: the `Strictness` type of the fidlgen library is not among the
sources; the spec gives it the two values `strict` and `flexible`. -/
inductive Strictness where
  | strict
  | flexible
  deriving DecidableEq, Repr

/-- Template query `.IsStrict`. -/
def Strictness.IsStrict : Strictness → Bool
  | .strict => true
  | .flexible => false

/-- Template query `.IsFlexible`, the negation of `.IsStrict`. -/
def Strictness.IsFlexible (s : Strictness) : Bool := !s.IsStrict

namespace RustEnum

/-- One entry of `.Members` of the enum template: `.Name`, `.Value` (the integer literal that
is printed into the emitted source) and `.IsUnknown` (the member stands for "unknown"). -/
structure EnumMember where
  Name : String
  Value : Int
  IsUnknown : Bool
  deriving DecidableEq, Repr

/-- The data handed to the template `EnumDeclaration`. -/
structure EnumDeclaration where
  Name : String
  Strictness : Strictness
  Members : List EnumMember
  UnknownValueForTmpl : Int
  deriving Repr

/-- Template query `.IsStrict` on the declaration. -/
def EnumDeclaration.IsStrict (d : EnumDeclaration) : Bool := d.Strictness.IsStrict

/-- Template query `.IsFlexible` on the declaration. -/
def EnumDeclaration.IsFlexible (d : EnumDeclaration) : Bool := d.Strictness.IsFlexible

/-- A value of the emitted `pub enum`: one case per entry of `.Members` (identified by its
position in the list) and, emitted only when the declaration is flexible, the case
`__Unknown` carrying a primitive. -/
inductive EnumValue (d : EnumDeclaration) where
  | member (i : Fin d.Members.length)
  | __Unknown (x : Int)
  deriving DecidableEq

/-- The arms `{{ .Value }} => ...` emitted by `range .Members`, followed by a catch-all arm:
a Rust `match` takes the first arm whose literal equals the scrutinee. The result is the
position of that arm, or `none` when the catch-all arm is taken. -/
def matchMembers : (ms : List EnumMember) → Int → Option (Fin ms.length)
  | [], _ => none
  | m :: ms, prim =>
    if m.Value = prim then some ⟨0, Nat.succ_pos _⟩
    else (matchMembers ms prim).map Fin.succ

/-- Emitted `from_primitive`: `match prim { Value => Some(Self::Name), ..., _ => None }`. -/
def from_primitive (d : EnumDeclaration) (prim : Int) : Option (EnumValue d) :=
  match matchMembers d.Members prim with
  | some i => some (.member i)
  | none => none

/-- Emitted `from_primitive_allow_unknown` (flexible branch of the template):
`match prim { Value => Self::Name, ..., x => Self::__Unknown(x) }`. -/
def from_primitive_allow_unknown (d : EnumDeclaration) (prim : Int) : EnumValue d :=
  match matchMembers d.Members prim with
  | some i => .member i
  | none => .__Unknown prim

/-- Emitted `unknown()` (flexible branch): `Self::__Unknown(UnknownValueForTmpl)`. -/
def unknown (d : EnumDeclaration) : EnumValue d := .__Unknown d.UnknownValueForTmpl

/-- Emitted `into_primitive`. Strict branch: `self as Type`, the discriminant that the
declaration line `Name = Value` gives the case. Flexible branch:
`match self { Self::Name => Value, ..., Self::__Unknown(x) => x }`. -/
def into_primitive (d : EnumDeclaration) (self : EnumValue d) : Int :=
  if d.IsStrict then
    match self with
    | .member i => (d.Members.get i).Value
    | .__Unknown x => x
  else
    match self with
    | .member i => (d.Members.get i).Value
    | .__Unknown x => x

/-- Emitted `validate`. Strict branch: `Ok(self)`. Flexible branch: an arm
`Self::Name => Err(self.into_primitive())` for every member with `.IsUnknown`, the arm
`Self::__Unknown(x) => Err(x)`, and `_ => Ok(self)`. -/
def validate (d : EnumDeclaration) (self : EnumValue d) : Except Int (EnumValue d) :=
  if d.IsStrict then .ok self
  else
    match self with
    | .member i =>
      if (d.Members.get i).IsUnknown then .error (into_primitive d self) else .ok self
    | .__Unknown x => .error x

/-- Rust `Result::is_err`. -/
def is_err {ε α : Type} : Except ε α → Bool
  | .error _ => true
  | .ok _ => false

/-- Emitted `is_unknown`. Strict branch: `false`. Flexible branch:
`self.validate().is_err()`. -/
def is_unknown (d : EnumDeclaration) (self : EnumValue d) : Bool :=
  if d.IsStrict then false else is_err (validate d self)

/-- A flexible enumeration with two plain members. -/
def exampleFlexible : EnumDeclaration :=
  { Name := "Color", Strictness := .flexible,
    Members := [⟨"RED", 1, false⟩, ⟨"BLUE", 2, false⟩],
    UnknownValueForTmpl := 0xffffffff }

/-- A flexible enumeration one of whose members is marked as the unknown member. -/
def exampleWithUnknownMember : EnumDeclaration :=
  { Name := "Kind", Strictness := .flexible,
    Members := [⟨"A", 1, false⟩, ⟨"OTHER", 7, true⟩],
    UnknownValueForTmpl := 7 }

/-- A strict enumeration with pairwise distinct values. -/
def exampleStrict : EnumDeclaration :=
  { Name := "Mode", Strictness := .strict,
    Members := [⟨"OFF", 0, false⟩, ⟨"ON", 5, false⟩, ⟨"AUTO", 9, false⟩],
    UnknownValueForTmpl := 0 }

/-- One case of the emitted `pub enum`: a line `Name = Value,` (strict) or `Name,`
(flexible) emitted by `range .Members`, or the case `__Unknown(Type)`. -/
inductive EmittedCase where
  | named (Name : String) (discriminant : Option Int)
  | __Unknown
  deriving DecidableEq, Repr

/-- The body of the emitted `pub enum`: the cases emitted by `range .Members`, each with its
discriminant `= Value` when the declaration is strict, then, inside `if .IsFlexible`, the
case `__Unknown`. -/
def EnumDeclaration.cases (d : EnumDeclaration) : List EmittedCase :=
  d.Members.map (fun m => EmittedCase.named m.Name (if d.IsStrict then some m.Value else none)) ++
  (if d.IsFlexible then [EmittedCase.__Unknown] else [])

/-- Modelled from the spec: the ways the generator step below fails; the spec names
`SentinelCollision`, a schema error caught at generation time. -/
inductive GenerationError where
  | SentinelCollision
  deriving DecidableEq, Repr

/-- Modelled from the spec: the generator step that chooses the unknown sentinel of a
flexible enumeration is not among the sources (the template only receives
`.UnknownValueForTmpl`). The spec has the sentinel chosen deterministically, the maximum
representable value of the primitive unless the schema pins one, and has generation fail
with `SentinelCollision` when the chosen sentinel equals the value of a named member. -/
def generateFlexible (Name : String) (Members : List EnumMember) (maxValue : Int)
    (pinned : Option Int) : Except GenerationError EnumDeclaration :=
  let sentinel := pinned.getD maxValue
  if Members.any (fun m => m.Value == sentinel) then .error .SentinelCollision
  else .ok { Name := Name, Strictness := .flexible, Members := Members,
             UnknownValueForTmpl := sentinel }

end RustEnum

namespace RustBits

/-- One entry of `.Members` of the bits template: `const Name = Value;`. -/
structure BitsMember where
  Name : String
  Value : Nat
  deriving DecidableEq, Repr

/-- The data handed to the template `BitsDeclaration`. `TypeWidth` is the bit width of the
unsigned primitive named by `.Type` (8 for `u8`, ..., 64 for `u64`). -/
structure BitsDeclaration where
  Name : String
  TypeWidth : Nat
  Strictness : Strictness
  Members : List BitsMember
  deriving Repr

/-- Template query `.IsStrict` on the declaration. -/
def BitsDeclaration.IsStrict (d : BitsDeclaration) : Bool := d.Strictness.IsStrict

/-- A value of the struct emitted through `bitflags!`: the single field `bits`. -/
structure BitsValue where
  bits : Nat
  deriving DecidableEq, Repr

/-- The associated function `all()` that `bitflags!` gives the struct: the union of all the
declared constants. -/
def all (d : BitsDeclaration) : BitsValue :=
  ⟨d.Members.foldl (fun acc m => acc ||| m.Value) 0⟩

/-- Rust `!x` on an unsigned primitive of `w` bits: every one of the `w` bits flipped. -/
def bitNot (w x : Nat) : Nat := 2 ^ w - 1 - x % 2 ^ w

/-- Emitted `from_bits_allow_unknown` (flexible branch):
`unsafe { Self::from_bits_unchecked(bits) }`, which stores `bits` as given. -/
def from_bits_allow_unknown (_d : BitsDeclaration) (bits : Nat) : BitsValue := ⟨bits⟩

/-- Emitted `get_unknown_bits`. Strict branch: `0`. Flexible branch:
`self.bits & !Self::all().bits`. -/
def get_unknown_bits (d : BitsDeclaration) (self : BitsValue) : Nat :=
  if d.IsStrict then 0 else self.bits &&& bitNot d.TypeWidth (all d).bits

/-- Emitted `has_unknown_bits`. Strict branch: `false`. Flexible branch:
`self.get_unknown_bits() != 0`. -/
def has_unknown_bits (d : BitsDeclaration) (self : BitsValue) : Bool :=
  if d.IsStrict then false else get_unknown_bits d self != 0

/-- A flexible set over `u8` with named bits at positions 0 and 1. -/
def exampleFlexible : BitsDeclaration :=
  { Name := "Flags", TypeWidth := 8, Strictness := .flexible,
    Members := [⟨"A", 1⟩, ⟨"B", 2⟩] }

/-- A strict set over `u8` with named bits at positions 0 and 1. -/
def exampleStrict : BitsDeclaration :=
  { Name := "Perms", TypeWidth := 8, Strictness := .strict,
    Members := [⟨"R", 1⟩, ⟨"W", 2⟩] }

end RustBits

namespace RustUnion

/-- One entry of `.Members` of the union template (`TypeName` is the template's `.Type`,
the payload type as the emitted source spells it). -/
structure UnionMember where
  Name : String
  TypeName : String
  Ordinal : Nat
  HasHandleMetadata : Bool
  deriving DecidableEq, Repr

/-- The data handed to the template `UnionDeclaration`. -/
structure UnionDeclaration where
  Name : String
  Strictness : Strictness
  IsResourceType : Bool
  Members : List UnionMember
  deriving Repr

/-- Template query `.IsStrict` on the declaration. -/
def UnionDeclaration.IsStrict (d : UnionDeclaration) : Bool := d.Strictness.IsStrict

/-- Template query `.IsFlexible` on the declaration. -/
def UnionDeclaration.IsFlexible (d : UnionDeclaration) : Bool := d.Strictness.IsFlexible

/-- Template query `.IsValueType`: the declaration is not a resource type. -/
def UnionDeclaration.IsValueType (d : UnionDeclaration) : Bool := !d.IsResourceType

/-- Modelled from the spec: `fidl::UnknownData` of the Rust runtime library is not among the
sources; the spec describes it as the raw payload together with its live handles. -/
structure UnknownData where
  bytes : List Nat
  handles : List Nat
  deriving DecidableEq, Repr

/-- The type of the second field of `__Unknown`: `data: fidl::UnknownData` when
`.IsResourceType`, `bytes: Vec<u8>` otherwise. -/
def UnknownPayload : Bool → Type
  | true => UnknownData
  | false => List Nat

/-- A value of the emitted `pub enum`: one case `Name(Type)` per entry of `.Members`
(identified by its position, with a payload of the type `P` gives that position) and,
emitted only when the declaration is flexible, the case `__Unknown { ordinal, .. }`. -/
inductive UnionValue (d : UnionDeclaration) (P : Fin d.Members.length → Type) where
  | member (i : Fin d.Members.length) (payload : P i)
  | __Unknown (ordinal : Nat) (payload : UnknownPayload d.IsResourceType)

/-- Emitted `unknown(ordinal, bytes)` and `unknown(ordinal, data)` (flexible branches). -/
def unknown (d : UnionDeclaration) (P : Fin d.Members.length → Type) (ordinal : Nat)
    (payload : UnknownPayload d.IsResourceType) : UnionValue d P :=
  .__Unknown ordinal payload

/-- Emitted `validate`, one definition per branch of the template: `Ok(self)` in the two
strict branches; in the two flexible branches
`match self { Self::__Unknown { ordinal, .. } => Err((ordinal, ..)), _ => Ok(self) }`. -/
def validate (d : UnionDeclaration) (P : Fin d.Members.length → Type) (self : UnionValue d P) :
    Except (Nat × UnknownPayload d.IsResourceType) (UnionValue d P) :=
  if d.IsStrict && d.IsValueType then .ok self
  else if d.IsStrict && d.IsResourceType then .ok self
  else if d.IsFlexible && d.IsValueType then
    match self with
    | .__Unknown ordinal bytes => .error (ordinal, bytes)
    | _ => .ok self
  else
    match self with
    | .__Unknown ordinal data => .error (ordinal, data)
    | _ => .ok self

/-- Emitted `is_unknown`: `false` in the two strict branches; in the two flexible branches
`match self { Self::__Unknown { .. } => true, _ => false }`. -/
def is_unknown (d : UnionDeclaration) (P : Fin d.Members.length → Type) (self : UnionValue d P) :
    Bool :=
  if d.IsStrict && d.IsValueType then false
  else if d.IsStrict && d.IsResourceType then false
  else if d.IsFlexible && d.IsValueType then
    match self with
    | .__Unknown _ _ => true
    | _ => false
  else
    match self with
    | .__Unknown _ _ => true
    | _ => false

/-- A flexible value-typed union with members at ordinals 1 and 2. -/
def exampleFlexible : UnionDeclaration :=
  { Name := "Shape", Strictness := .flexible, IsResourceType := false,
    Members := [⟨"Circle", "u32", 1, false⟩, ⟨"Square", "u32", 2, false⟩] }

/-- A flexible resource-typed union with members at ordinals 1 and 2. -/
def exampleFlexibleResource : UnionDeclaration :=
  { Name := "Endpoint", Strictness := .flexible, IsResourceType := true,
    Members := [⟨"Chan", "zx::Channel", 1, true⟩, ⟨"Id", "u32", 2, false⟩] }

/-- A strict value-typed union. -/
def exampleStrict : UnionDeclaration :=
  { Name := "Choice", Strictness := .strict, IsResourceType := false,
    Members := [⟨"Left", "u8", 1, false⟩, ⟨"Right", "u8", 3, false⟩] }

/-- One case of the emitted `pub enum`: a line `Name(Type),` emitted by `range .Members`, or
the case `__Unknown` with the fields `ordinal: u64` and `data: fidl::UnknownData` (resource
type) or `bytes: Vec<u8>` (value type). -/
inductive EmittedCase where
  | named (Name : String) (TypeName : String)
  | __Unknown (IsResourceType : Bool)
  deriving DecidableEq, Repr

/-- The body of the emitted `pub enum`: the cases emitted by `range .Members`, then, inside
`if .IsFlexible`, the case `__Unknown`. -/
def UnionDeclaration.cases (d : UnionDeclaration) : List EmittedCase :=
  d.Members.map (fun m => EmittedCase.named m.Name m.TypeName) ++
  (if d.IsFlexible then [EmittedCase.__Unknown d.IsResourceType] else [])

end RustUnion

namespace LlcppResult

/-- The part of the data handed to the templates `MethodUnownedResultDeclaration` and
`MethodUnownedResultDefinition` that decides which members are emitted: `.HasResponse` and
`.Response.IsResource`. -/
structure Method where
  HasResponse : Bool
  ResponseIsResource : Bool
  deriving DecidableEq, Repr

/-- Modelled from the spec: the status code `ZX_OK` of the base class `::fidl::Result` is not
among the sources; it is the status that indicates success. -/
def ZX_OK : Int := 0

/-- The decoded response the buffer holds after a successful call, as far as teardown is
concerned: the live handles embedded in it. -/
structure WireResponse where
  handles : List Nat
  deriving DecidableEq, Repr

/-- Modelled from the spec: `_CloseHandles()` of the generated response type is not among
the sources; the spec has teardown close every live handle embedded in the response view.
The result is the sequence of handles it closes. -/
def WireResponse._CloseHandles (resp : WireResponse) : List Nat := resp.handles

/-- The members of the emitted class: `status_` and `error_` of the base class
`::fidl::Result`, and the pointer `bytes_` (an address), a member only when the method has a
response. -/
structure WireUnownedResult where
  status_ : Int
  error_ : Option String
  bytes_ : Nat
  deriving DecidableEq, Repr

/-- Modelled from the spec: `ok()` of the base class `::fidl::Result` is not among the
sources; it is true iff `status_` indicates success. -/
def WireUnownedResult.ok (self : WireUnownedResult) : Bool := self.status_ == ZX_OK

/-- The emitted constructor that performs the call: `bytes_(_response_bytes)` in the member
initialiser list, and at the end `status_ = _request.status(); error_ = _request.error();`.
The outcome of the call, made by the transport, is a parameter. -/
def WireUnownedResult.new (_m : Method) (_response_bytes : Nat) (requestStatus : Int)
    (requestError : Option String) : WireUnownedResult :=
  { bytes_ := _response_bytes, status_ := requestStatus, error_ := requestError }

/-- Emitted `Unwrap()`: `ZX_DEBUG_ASSERT(ok()); return reinterpret_cast<...>(bytes_);`.
The result is `none` when the assertion fails. -/
def WireUnownedResult.Unwrap (self : WireUnownedResult) : Option Nat :=
  if self.ok then some self.bytes_ else none

/-- The emitted destructor, run against the memory `mem` (the response each address holds):
`if (ok()) { Unwrap()->_CloseHandles(); }` when `.HasResponse` and `.Response.IsResource`,
`= default` otherwise. The result is the sequence of handles closed, `none` when an
assertion fails on the way. -/
def WireUnownedResult.destructor (m : Method) (mem : Nat → WireResponse)
    (self : WireUnownedResult) : Option (List Nat) :=
  if m.HasResponse && m.ResponseIsResource then
    if self.ok then
      match self.Unwrap with
      | some p => some (mem p)._CloseHandles
      | none => none
    else some []
  else some []

/-- The other emitted constructor,
`explicit Self(const ::fidl::Result& result) : ::fidl::Result(result) {}`: status and error
are copied from `result`; `bytes_` is not initialised, so its value is a parameter. -/
def WireUnownedResult.ofResult (resultStatus : Int) (resultError : Option String)
    (indeterminate : Nat) : WireUnownedResult :=
  { bytes_ := indeterminate, status_ := resultStatus, error_ := resultError }

/-- Emitted `Unwrap() const`, with the body of `Unwrap()`. -/
def WireUnownedResult.Unwrap_const (self : WireUnownedResult) : Option Nat :=
  if self.ok then some self.bytes_ else none

/-- Emitted `value()`: `return *Unwrap();`, a reference to the object `Unwrap()` points
at, that is the same address. -/
def WireUnownedResult.value (self : WireUnownedResult) : Option Nat :=
  match self.Unwrap with
  | some p => some p
  | none => none

/-- Emitted `value() const`: `return *Unwrap();`. -/
def WireUnownedResult.value_const (self : WireUnownedResult) : Option Nat :=
  match self.Unwrap_const with
  | some p => some p
  | none => none

/-- Emitted `operator->()`: `return &value();`. -/
def WireUnownedResult.arrow (self : WireUnownedResult) : Option Nat :=
  match self.value with
  | some p => some p
  | none => none

/-- Emitted `operator->() const`: `return &value();`. -/
def WireUnownedResult.arrow_const (self : WireUnownedResult) : Option Nat :=
  match self.value_const with
  | some p => some p
  | none => none

/-- Emitted `operator*()`: `return value();`. -/
def WireUnownedResult.star (self : WireUnownedResult) : Option Nat := self.value

/-- Emitted `operator*() const`: `return value();`. -/
def WireUnownedResult.star_const (self : WireUnownedResult) : Option Nat := self.value_const

end LlcppResult

namespace Eapol

/-- IEEE Std 802.1X-2010, 11.3.2, Table 11-3. -/
def PacketType_EAP : Nat := 0

/-- Packet type EAPOL-Start. -/
def PacketType_Start : Nat := 1

/-- Packet type EAPOL-Logoff. -/
def PacketType_Logoff : Nat := 2

/-- Packet type EAPOL-Key. -/
def PacketType_Key : Nat := 3

/-- The struct `Header`: `Version uint8`, `PacketType uint8`, `PacketBodyLength uint16`. -/
structure Header where
  Version : Nat
  PacketType : Nat
  PacketBodyLength : Nat
  deriving DecidableEq, Repr

/-- Length in bytes of an encoded header. -/
def HeaderLen : Nat := 4

/-- The struct `KeyFrame`: the embedded header, `DescriptorType uint8`, `Info KeyInfo`
(a `uint16`), `Length uint16`, the arrays `ReplayCounter [8]uint8`, `Nonce [32]uint8`,
`IV [16]uint8`, `RSC [8]uint8`, the slice `MIC`, `DataLength uint16` and the slice `Data`. -/
structure KeyFrame where
  Header : Eapol.Header
  DescriptorType : Nat
  Info : Nat
  Length : Nat
  ReplayCounter : List Nat
  Nonce : List Nat
  IV : List Nat
  RSC : List Nat
  MIC : List Nat
  DataLength : Nat
  Data : List Nat
  deriving DecidableEq, Repr

/-- Minimum length of an EAPOL Key frame body excluding the dynamic MIC. -/
def KeyFrameBodyMinLenExclusiveMIC : Nat := 79

/-- The values the Go type `[]byte` holds: every element is a `uint8`. -/
def IsBytes (bs : List Nat) : Prop := ∀ b ∈ bs, b < 256

instance (bs : List Nat) : Decidable (IsBytes bs) := by
  unfold IsBytes; infer_instance

/-- The values the Go type `Header` holds. -/
def Header.WellTyped (h : Header) : Prop :=
  h.Version < 256 ∧ h.PacketType < 256 ∧ h.PacketBodyLength < 65536

instance (h : Header) : Decidable h.WellTyped := by
  unfold Header.WellTyped; infer_instance

/-- The values the Go type `KeyFrame` holds: every integer field within the range of its
type, every array of its declared length. -/
def KeyFrame.WellTyped (f : KeyFrame) : Prop :=
  f.Header.WellTyped ∧ f.DescriptorType < 256 ∧ f.Info < 65536 ∧ f.Length < 65536 ∧
  (f.ReplayCounter.length = 8 ∧ IsBytes f.ReplayCounter) ∧
  (f.Nonce.length = 32 ∧ IsBytes f.Nonce) ∧
  (f.IV.length = 16 ∧ IsBytes f.IV) ∧
  (f.RSC.length = 8 ∧ IsBytes f.RSC) ∧
  IsBytes f.MIC ∧ f.DataLength < 65536 ∧ IsBytes f.Data

instance (f : KeyFrame) : Decidable f.WellTyped := by
  unfold KeyFrame.WellTyped; infer_instance

/-- The zero value `KeyFrame{}`. -/
def KeyFrame.zero : KeyFrame :=
  { Header := ⟨0, 0, 0⟩, DescriptorType := 0, Info := 0, Length := 0,
    ReplayCounter := List.replicate 8 0, Nonce := List.replicate 32 0,
    IV := List.replicate 16 0, RSC := List.replicate 8 0, MIC := [],
    DataLength := 0, Data := [] }

/-- The standard library's `bytes.Reader`: the slice `s` and the read position `i`. -/
structure Reader where
  s : List Nat
  i : Nat
  deriving DecidableEq, Repr

/-- Library `bytes.NewReader`. -/
def NewReader (b : List Nat) : Reader := ⟨b, 0⟩

/-- Library `(*bytes.Reader).Len`: the number of unread bytes. -/
def Reader.Len (r : Reader) : Nat :=
  if r.i ≥ r.s.length then 0 else r.s.length - r.i

/-- Library `(*bytes.Reader).Seek(offset, io.SeekCurrent)` for an offset that is not negative:
the position moves forward, also beyond the end of the slice. -/
def Reader.Seek (r : Reader) (offset : Nat) : Reader := { r with i := r.i + offset }

/-- Library `io.ReadFull(r, buf)` on a `bytes.Reader`, with `n = len(buf)`: nothing is read
for `n = 0`; at the end of the slice the read fails (`io.EOF`); with fewer than `n` unread
bytes all of them are consumed and the read fails (`io.ErrUnexpectedEOF`); otherwise the next
`n` bytes are returned. -/
def Reader.ReadFull (r : Reader) (n : Nat) : Option (List Nat) × Reader :=
  if n = 0 then (some [], r)
  else if r.i ≥ r.s.length then (none, r)
  else if r.s.length - r.i < n then (none, { r with i := r.s.length })
  else (some ((r.s.drop r.i).take n), { r with i := r.i + n })

/-- Big-endian `binary.BigEndian.Uint16`: `uint16(b[1]) | uint16(b[0])<<8`. -/
def Uint16 (b0 b1 : Nat) : Nat := b1 ||| (b0 <<< 8)

/-- Big-endian `binary.BigEndian.PutUint16`: `byte(v >> 8)`, `byte(v)`. -/
def PutUint16 (v : Nat) : List Nat := [(v >>> 8) % 256, v % 256]

/-- Library `binary.Read(reader, binary.BigEndian, &x)` for `x` of kind `uint8`: on a failed
read `x` keeps its value. -/
def readUint8 (r : Reader) (x : Nat) : Nat × Reader :=
  match r.ReadFull 1 with
  | (some [b], r1) => (b, r1)
  | (_, r1) => (x, r1)

/-- Library `binary.Read(reader, binary.BigEndian, &x)` for `x` of kind `uint16`. -/
def readUint16 (r : Reader) (x : Nat) : Nat × Reader :=
  match r.ReadFull 2 with
  | (some [b0, b1], r1) => (Uint16 b0 b1, r1)
  | (_, r1) => (x, r1)

/-- Library `binary.Read(reader, binary.BigEndian, &x)` for `x` an array or a slice of
`uint8`: `len(x)` bytes are read; on a failed read `x` keeps its value. -/
def readBytes (r : Reader) (x : List Nat) : List Nat × Reader :=
  match r.ReadFull x.length with
  | (some bs, r1) => (bs, r1)
  | (none, r1) => (x, r1)

/-- Library `binary.Read(reader, binary.BigEndian, hdr)` for `hdr *Header`: the four bytes
of the struct are read at once and decoded field by field. -/
def readHeader (r : Reader) (x : Header) : Header × Reader :=
  match r.ReadFull 4 with
  | (some [b0, b1, b2, b3], r1) => (⟨b0, b1, Uint16 b2 b3⟩, r1)
  | (_, r1) => (x, r1)

/-- The ways `ParseHeader` and `ParseKeyFrame` end without a frame: the four `fmt.Errorf`
results with the values they print, and the run-time panic of `make` on a negative length. -/
inductive ParseError where
  | invalidHeader
  | nilHeader
  | notKeyFrame (type : Nat)
  | shortFrame (length : Nat)
  | corrupted (expected remaining : Nat)
  | makePanic
  deriving DecidableEq, Repr

/-- Function `ParseHeader`. -/
def ParseHeader (raw : List Nat) : Except ParseError Header :=
  let reader := NewReader raw
  if reader.Len < HeaderLen then .error .invalidHeader
  else
    let hdr : Header := ⟨0, 0, 0⟩
    let (hdr, _) := readHeader reader hdr
    .ok hdr

/-- Go conversion `uint16(x)` of an `int`. -/
def toUint16 (x : Int) : Int := x % 65536

/-- Function `ParseKeyFrame`; `hdr` is `none` for the nil pointer, and `micBits/8` is Go's
integer division, which truncates towards zero. -/
def ParseKeyFrame (hdr : Option Header) (body : List Nat) (micBits : Int) :
    Except ParseError KeyFrame :=
  match hdr with
  | none => .error .nilHeader
  | some hdr =>
    if hdr.PacketType ≠ PacketType_Key then .error (.notKeyFrame hdr.PacketType)
    else if (hdr.PacketBodyLength : Int) <
        toUint16 ((KeyFrameBodyMinLenExclusiveMIC : Int) + micBits.tdiv 8) then
      .error (.shortFrame hdr.PacketBodyLength)
    else
      let frame := { KeyFrame.zero with Header := hdr }
      let reader := NewReader body
      let (DescriptorType, reader) := readUint8 reader frame.DescriptorType
      let (Info, reader) := readUint16 reader frame.Info
      let (Length, reader) := readUint16 reader frame.Length
      let (ReplayCounter, reader) := readBytes reader frame.ReplayCounter
      let (Nonce, reader) := readBytes reader frame.Nonce
      let (IV, reader) := readBytes reader frame.IV
      let (RSC, reader) := readBytes reader frame.RSC
      let reader := reader.Seek 8
      if micBits.tdiv 8 < 0 then .error .makePanic
      else
        let (MIC, reader) := readBytes reader (List.replicate (micBits.tdiv 8).toNat 0)
        let (DataLength, reader) := readUint16 reader frame.DataLength
        if (reader.Len : Int) ≠ (DataLength : Int) then
          .error (.corrupted hdr.PacketBodyLength reader.Len)
        else
          let (Data, _) := readBytes reader (List.replicate reader.Len 0)
          .ok { Header := hdr, DescriptorType := DescriptorType, Info := Info,
                Length := Length, ReplayCounter := ReplayCounter, Nonce := Nonce, IV := IV,
                RSC := RSC, MIC := MIC, DataLength := DataLength, Data := Data }

/-- Method `(*KeyFrame).Bytes`: the fields written one after the other in big-endian order,
eight reserved zero bytes before the MIC, and the data length derived from `Data`. -/
def KeyFrame.Bytes (f : KeyFrame) : List Nat :=
  ([f.Header.Version, f.Header.PacketType] ++ PutUint16 f.Header.PacketBodyLength) ++
  [f.DescriptorType] ++ PutUint16 f.Info ++ PutUint16 f.Length ++
  f.ReplayCounter ++ f.Nonce ++ f.IV ++ f.RSC ++ List.replicate 8 0 ++ f.MIC ++
  PutUint16 (f.Data.length % 65536) ++ f.Data

/-- A key frame with a 16-byte MIC and three bytes of key data. -/
def exampleFrame : KeyFrame :=
  { Header := ⟨2, 3, 98⟩, DescriptorType := 2, Info := 0x13ca, Length := 16,
    ReplayCounter := [0, 0, 0, 0, 0, 0, 0, 1],
    Nonce := List.replicate 32 0xab, IV := List.replicate 16 0,
    RSC := [1, 2, 3, 4, 5, 6, 7, 8], MIC := List.replicate 16 0x5c,
    DataLength := 3, Data := [0xdd, 0x01, 0xff] }

/-- The body of a key frame with a 16-byte MIC and three bytes of key data whose eight
reserved bytes (offsets 69 to 76) are not zero. -/
def exampleBody : List Nat :=
  [2, 0x13, 0xca, 0, 16] ++ [0, 0, 0, 0, 0, 0, 0, 1] ++ List.replicate 32 0xab ++
  List.replicate 16 0 ++ [1, 2, 3, 4, 5, 6, 7, 8] ++ [9, 9, 9, 9, 9, 9, 9, 9] ++
  List.replicate 16 0x5c ++ [0, 3] ++ [0xdd, 0x01, 0xff]

end Eapol

/-! ## Enumerations -/

namespace RustEnum

theorem matchMembers_some (ms : List EnumMember) (p : Int) (i : Fin ms.length)
    (h : matchMembers ms p = some i) : (ms.get i).Value = p := by
  induction ms with
  | nil => exact i.elim0
  | cons m ms ih =>
    unfold matchMembers at h
    split at h
    · rename_i hm
      cases h
      simpa using hm
    · cases hrec : matchMembers ms p with
      | none => simp [hrec] at h
      | some j =>
        simp [hrec] at h
        subst h
        simpa using ih j hrec

theorem matchMembers_none_iff (ms : List EnumMember) (p : Int) :
    matchMembers ms p = none ↔ ∀ m ∈ ms, m.Value ≠ p := by
  induction ms with
  | nil => simp [matchMembers]
  | cons m ms ih =>
    unfold matchMembers
    by_cases hm : m.Value = p
    · simp [hm]
    · simp [hm, ih]

theorem matchMembers_get_of_nodup (ms : List EnumMember)
    (hnd : (ms.map (fun m => m.Value)).Nodup) (i : Fin ms.length) :
    matchMembers ms (ms.get i).Value = some i := by
  induction ms with
  | nil => exact i.elim0
  | cons m ms ih =>
    rw [List.map_cons, List.nodup_cons] at hnd
    obtain ⟨hnotin, hnd⟩ := hnd
    unfold matchMembers
    refine Fin.cases ?_ (fun j => ?_) i
    · simp
    · have hne : m.Value ≠ (ms.get j).Value := by
        intro heq
        apply hnotin
        rw [heq]
        exact List.mem_map.mpr ⟨ms.get j, List.get_mem ms j.1 j.2, rfl⟩
      have hget : ((m :: ms).get j.succ).Value = (ms.get j).Value := by simp
      rw [hget, if_neg hne, ih hnd j]
      rfl

theorem into_primitive_member (d : EnumDeclaration) (i : Fin d.Members.length) :
    into_primitive d (.member i) = (d.Members.get i).Value := by
  unfold into_primitive
  split <;> rfl

theorem into_primitive_unknown (d : EnumDeclaration) (x : Int) :
    into_primitive d (.__Unknown x) = x := by
  unfold into_primitive
  split <;> rfl

/-- C1: for every enumeration declaration and every primitive `p`,
`into_primitive(from_primitive_allow_unknown(p)) = p`; `from_primitive_allow_unknown` is a
total function, and when `p` is the value of no named member its result is the unknown
variant carrying `p` itself. -/
theorem from_primitive_allow_unknown_round_trip (d : EnumDeclaration) (p : Int) :
    into_primitive d (from_primitive_allow_unknown d p) = p ∧
    ((∀ m ∈ d.Members, m.Value ≠ p) → from_primitive_allow_unknown d p = .__Unknown p) := by
  constructor
  · unfold from_primitive_allow_unknown
    cases h : matchMembers d.Members p with
    | none => exact into_primitive_unknown d p
    | some i =>
      show into_primitive d (.member i) = p
      rw [into_primitive_member]
      exact matchMembers_some d.Members p i h
  · intro hno
    unfold from_primitive_allow_unknown
    rw [(matchMembers_none_iff d.Members p).mpr hno]

/-- C4, as the code has it: for every flexible enumeration and every value `v`, `validate(v)`
fails if and only if `v` is the unknown variant or a named member that the declaration marks
as its unknown member; the error is then `into_primitive(v)` (the primitive the unknown
variant carries, the declared value of the marked member); in every other case `validate`
returns `Ok(v)` unchanged. -/
theorem validate_flexible (d : EnumDeclaration) (hflex : d.Strictness = .flexible)
    (v : EnumValue d) :
    ((∃ e, validate d v = .error e) ↔
      ((∃ x, v = .__Unknown x) ∨ (∃ i, v = .member i ∧ (d.Members.get i).IsUnknown = true))) ∧
    (∀ e, validate d v = .error e → e = into_primitive d v) ∧
    ((∀ e, validate d v ≠ .error e) → validate d v = .ok v) := by
  have hs : d.IsStrict = false := by
    simp [EnumDeclaration.IsStrict, hflex, Strictness.IsStrict]
  cases v with
  | __Unknown x =>
    have hv : validate d (.__Unknown x) = .error x := by simp [validate, hs]
    refine ⟨?_, ?_, ?_⟩
    · constructor
      · intro _
        exact Or.inl ⟨x, rfl⟩
      · intro _
        exact ⟨x, hv⟩
    · intro e he
      rw [hv] at he
      cases he
      exact (into_primitive_unknown d x).symm
    · intro hne
      exact absurd hv (hne x)
  | member i =>
    by_cases hu : (d.Members.get i).IsUnknown = true
    · have hv : validate d (.member i) = .error (into_primitive d (.member i)) := by
        simp [validate, hs]
        exact hu
      refine ⟨?_, ?_, ?_⟩
      · constructor
        · intro _
          exact Or.inr ⟨i, rfl, hu⟩
        · intro _
          exact ⟨_, hv⟩
      · intro e he
        rw [hv] at he
        cases he
        rfl
      · intro hne
        exact absurd hv (hne _)
    · have hv : validate d (.member i) = .ok (.member i) := by
        simp [validate, hs]
        exact Bool.eq_false_iff.mpr hu
      refine ⟨?_, ?_, ?_⟩
      · constructor
        · intro ⟨e, he⟩
          rw [hv] at he
          cases he
        · intro h
          rcases h with ⟨x, hx⟩ | ⟨j, hj, hju⟩
          · cases hx
          · cases hj
            exact absurd hju hu
      · intro e he
        rw [hv] at he
        cases he
      · intro _
        exact hv

/-- Witness for `validate_flexible`: the marked member `OTHER` of a flexible enumeration. -/
theorem validate_flexible_witness :
    exampleWithUnknownMember.Strictness = .flexible ∧
    validate exampleWithUnknownMember (.member ⟨1, by decide⟩) = .error 7 ∧
    (∀ e, validate exampleWithUnknownMember (.member ⟨1, by decide⟩) = .error e →
      e = into_primitive exampleWithUnknownMember (.member ⟨1, by decide⟩)) :=
  ⟨rfl, rfl, (validate_flexible exampleWithUnknownMember rfl (.member ⟨1, by decide⟩)).2.1⟩

/-- C4 as stated fails: in a flexible enumeration whose member `OTHER = 7` is marked as the
unknown member, `validate` of that named member is `Err(7)`, not `Ok`, although the value
is not the unknown variant. -/
theorem validate_named_member_fails :
    validate exampleWithUnknownMember (.member ⟨1, by decide⟩) = .error 7 ∧
    validate exampleWithUnknownMember (.member ⟨1, by decide⟩) ≠
      .ok (.member ⟨1, by decide⟩) ∧
    ¬ ((∃ e, validate exampleWithUnknownMember (.member ⟨1, by decide⟩) = .error e) ↔
       (∃ x, (EnumValue.member ⟨1, by decide⟩ : EnumValue exampleWithUnknownMember) =
         .__Unknown x)) := by
  have hv : validate exampleWithUnknownMember (.member ⟨1, by decide⟩) = .error 7 := rfl
  refine ⟨hv, ?_, ?_⟩
  · rw [hv]
    intro h
    cases h
  · intro h
    obtain ⟨x, hx⟩ := h.mp ⟨7, hv⟩
    cases hx

/-- C6: for every enumeration whose member values are pairwise distinct and every named
member `m`, `from_primitive(into_primitive(m)) = Some(m)`, where `into_primitive(m)` is the
declared value of `m`. -/
theorem from_primitive_into_primitive (d : EnumDeclaration)
    (hdistinct : (d.Members.map (fun m => m.Value)).Nodup) (i : Fin d.Members.length) :
    into_primitive d (.member i) = (d.Members.get i).Value ∧
    from_primitive d (into_primitive d (.member i)) = some (.member i) := by
  refine ⟨into_primitive_member d i, ?_⟩
  rw [into_primitive_member]
  unfold from_primitive
  rw [matchMembers_get_of_nodup d.Members hdistinct i]

/-- Witness for `from_primitive_into_primitive`: the member `ON = 5` of a strict enumeration. -/
theorem from_primitive_into_primitive_witness :
    exampleStrict.Strictness = .strict ∧
    (exampleStrict.Members.map (fun m => m.Value)).Nodup ∧
    into_primitive exampleStrict (.member ⟨1, by decide⟩) = 5 ∧
    from_primitive exampleStrict (into_primitive exampleStrict (.member ⟨1, by decide⟩)) =
      some (.member ⟨1, by decide⟩) :=
  ⟨rfl, by decide, rfl,
    (from_primitive_into_primitive exampleStrict (by decide) ⟨1, by decide⟩).2⟩

/-- C7: for every enumeration (strict or flexible) and every primitive `p`,
`from_primitive(p)` is `None` if and only if `p` is the value of no named member, and when
it is `Some(m)`, `m` is a named member whose declared value is `p`. -/
theorem from_primitive_none_iff (d : EnumDeclaration) (p : Int) :
    (from_primitive d p = none ↔ ∀ m ∈ d.Members, m.Value ≠ p) ∧
    (∀ v, from_primitive d p = some v →
      ∃ i, v = .member i ∧ (d.Members.get i).Value = p ∧ into_primitive d v = p) := by
  constructor
  · rw [← matchMembers_none_iff]
    unfold from_primitive
    cases matchMembers d.Members p <;> simp
  · intro v hv
    unfold from_primitive at hv
    cases h : matchMembers d.Members p with
    | none => simp [h] at hv
    | some i =>
      simp [h] at hv
      subst hv
      have hval := matchMembers_some d.Members p i h
      exact ⟨i, rfl, hval, by rw [into_primitive_member, hval]⟩

end RustEnum

/-! ## Bit-flag sets -/

namespace RustBits

theorem testBit_foldl_or (ms : List BitsMember) (acc i : Nat) :
    (ms.foldl (fun acc m => acc ||| m.Value) acc).testBit i =
      (acc.testBit i || ms.any (fun m => m.Value.testBit i)) := by
  induction ms generalizing acc with
  | nil => simp
  | cons m ms ih =>
    rw [List.foldl_cons, ih, Nat.testBit_or, List.any_cons, Bool.or_assoc]

theorem testBit_all (d : BitsDeclaration) (i : Nat) :
    (all d).bits.testBit i = d.Members.any (fun m => m.Value.testBit i) := by
  unfold all
  rw [testBit_foldl_or]
  simp

theorem testBit_bitNot (w x i : Nat) :
    (bitNot w x).testBit i = (decide (i < w) && !x.testBit i) := by
  unfold bitNot
  have hlt : x % 2 ^ w < 2 ^ w := Nat.mod_lt _ (Nat.two_pow_pos w)
  have hsub : 2 ^ w - 1 - x % 2 ^ w = 2 ^ w - (x % 2 ^ w + 1) := by omega
  rw [hsub, Nat.testBit_two_pow_sub_succ hlt, Nat.testBit_mod_two_pow]
  by_cases hi : i < w <;> simp [hi]

theorem testBit_of_lt_two_pow (b w i : Nat) (hb : b < 2 ^ w) (hbit : b.testBit i = true) :
    i < w := by
  by_contra hge
  have hle : 2 ^ w ≤ 2 ^ i := Nat.pow_le_pow_right (by decide) (Nat.le_of_not_lt hge)
  have hfalse : b.testBit i = false := Nat.testBit_lt_two_pow (Nat.lt_of_lt_of_le hb hle)
  rw [hfalse] at hbit
  cases hbit

theorem testBit_get_unknown_bits (d : BitsDeclaration) (hs : d.IsStrict = false) (b : Nat)
    (hb : b < 2 ^ d.TypeWidth) (i : Nat) :
    (get_unknown_bits d ⟨b⟩).testBit i = (b.testBit i && !(all d).bits.testBit i) := by
  simp only [get_unknown_bits, hs, Bool.false_eq_true, if_false, Nat.testBit_and,
    testBit_bitNot]
  cases hbi : b.testBit i
  · simp
  · have hi : i < d.TypeWidth := testBit_of_lt_two_pow b d.TypeWidth i hb hbi
    simp [hi]

/-- C2: for every flexible bit-flag set over a primitive of `w` bits, with `K` the OR of all
named member values, and every stored value `b` of that primitive, `get_unknown_bits()` is
`b & !K`: its bit `i` is set exactly when bit `i` of `b` is set and bit `i` of no named
member is; and `has_unknown_bits()` is true if and only if that value is not zero, that is
if and only if `b` has a bit that no named member has. -/
theorem get_unknown_bits_flexible (d : BitsDeclaration) (hflex : d.Strictness = .flexible)
    (b : Nat) (hb : b < 2 ^ d.TypeWidth) :
    (∀ i, (all d).bits.testBit i = d.Members.any (fun m => m.Value.testBit i)) ∧
    (∀ i, (get_unknown_bits d ⟨b⟩).testBit i = (b.testBit i && !(all d).bits.testBit i)) ∧
    (has_unknown_bits d ⟨b⟩ = true ↔ get_unknown_bits d ⟨b⟩ ≠ 0) ∧
    (has_unknown_bits d ⟨b⟩ = true ↔
      ∃ i, b.testBit i = true ∧ (all d).bits.testBit i = false) := by
  have hs : d.IsStrict = false := by
    simp [BitsDeclaration.IsStrict, hflex, Strictness.IsStrict]
  have hbits := testBit_get_unknown_bits d hs b hb
  have hhas : has_unknown_bits d ⟨b⟩ = true ↔ get_unknown_bits d ⟨b⟩ ≠ 0 := by
    simp [has_unknown_bits, hs]
  refine ⟨testBit_all d, hbits, hhas, ?_⟩
  rw [hhas]
  constructor
  · intro hne
    obtain ⟨i, hi⟩ := Nat.ne_zero_implies_bit_true hne
    rw [hbits i] at hi
    refine ⟨i, ?_, ?_⟩
    · cases hbi : b.testBit i
      · simp [hbi] at hi
      · rfl
    · cases hki : (all d).bits.testBit i
      · rfl
      · simp [hki] at hi
  · intro ⟨i, hbi, hki⟩ hzero
    have hget := hbits i
    rw [hzero, hbi, hki] at hget
    simp at hget

/-- Witness for `get_unknown_bits_flexible`: the set over `u8` with named bits 0 and 1 and
the stored byte `0b00000110` has unknown bits, and they are `0b00000100`. -/
theorem get_unknown_bits_flexible_witness :
    exampleFlexible.Strictness = .flexible ∧ 0b00000110 < 2 ^ exampleFlexible.TypeWidth ∧
    has_unknown_bits exampleFlexible ⟨0b00000110⟩ = true ∧
    get_unknown_bits exampleFlexible ⟨0b00000110⟩ = 0b00000100 ∧
    (has_unknown_bits exampleFlexible ⟨0b00000110⟩ = true ↔
      ∃ i, (0b00000110 : Nat).testBit i = true ∧
        (all exampleFlexible).bits.testBit i = false) :=
  ⟨rfl, by decide, by decide, by decide,
    (get_unknown_bits_flexible exampleFlexible rfl 0b00000110 (by decide)).2.2.2⟩

/-- C3: for every bit-flag declaration and every primitive value `b`, with or without bits
outside the known mask, `from_bits_allow_unknown(b)` is a value (the constructor is total and
checks nothing) whose stored bits are `b` exactly; in a flexible set over a primitive that
holds `b`, the known bits of the result together with its unknown bits are `b` again, so no
bit is dropped. -/
theorem from_bits_allow_unknown_bits (d : BitsDeclaration) (b : Nat) :
    from_bits_allow_unknown d b = ⟨b⟩ ∧ (from_bits_allow_unknown d b).bits = b ∧
    (d.Strictness = .flexible → b < 2 ^ d.TypeWidth →
      ((from_bits_allow_unknown d b).bits &&& (all d).bits) |||
        get_unknown_bits d (from_bits_allow_unknown d b) = b) := by
  refine ⟨rfl, rfl, ?_⟩
  intro hflex hb
  have hs : d.IsStrict = false := by
    simp [BitsDeclaration.IsStrict, hflex, Strictness.IsStrict]
  apply Nat.eq_of_testBit_eq
  intro i
  show ((b &&& (all d).bits) ||| get_unknown_bits d ⟨b⟩).testBit i = b.testBit i
  rw [Nat.testBit_or, Nat.testBit_and, testBit_get_unknown_bits d hs b hb i]
  cases b.testBit i <;> cases (all d).bits.testBit i <;> rfl

/-- Witness for `from_bits_allow_unknown_bits`: the byte `0b00000110`, one bit of which is
outside the known mask `0b00000011`, is stored unchanged. -/
theorem from_bits_allow_unknown_bits_witness :
    (from_bits_allow_unknown exampleFlexible 0b00000110).bits = 0b00000110 ∧
    ((from_bits_allow_unknown exampleFlexible 0b00000110).bits &&&
        (all exampleFlexible).bits) |||
      get_unknown_bits exampleFlexible (from_bits_allow_unknown exampleFlexible 0b00000110) =
      0b00000110 :=
  ⟨(from_bits_allow_unknown_bits exampleFlexible 0b00000110).2.1,
    (from_bits_allow_unknown_bits exampleFlexible 0b00000110).2.2 rfl (by decide)⟩

end RustBits

/-! ## Tagged unions -/

namespace RustUnion

theorem validate_of_flexible (d : UnionDeclaration) (hflex : d.Strictness = .flexible)
    (P : Fin d.Members.length → Type) (v : UnionValue d P) :
    validate d P v =
      match v with
      | .__Unknown ordinal payload => .error (ordinal, payload)
      | .member i x => .ok (.member i x) := by
  have hs : d.IsStrict = false := by
    simp [UnionDeclaration.IsStrict, hflex, Strictness.IsStrict]
  unfold validate
  simp only [hs, Bool.false_and, Bool.false_eq_true, if_false]
  cases v <;> simp

/-- C5: for every flexible union, value-typed or resource-typed, and every value `v` of it,
`validate(v)` is `Err((ordinal, payload))` with exactly the ordinal and the raw payload stored
in `v` when `v` is the unknown variant, `Ok(v)` unchanged otherwise, and so it fails if and
only if `v` is the unknown variant. -/
theorem validate_flexible_union (d : UnionDeclaration) (hflex : d.Strictness = .flexible)
    (P : Fin d.Members.length → Type) (v : UnionValue d P) :
    (∀ ordinal payload, v = .__Unknown ordinal payload →
      validate d P v = .error (ordinal, payload)) ∧
    ((∀ ordinal payload, v ≠ .__Unknown ordinal payload) → validate d P v = .ok v) ∧
    ((∃ e, validate d P v = .error e) ↔ ∃ ordinal payload, v = .__Unknown ordinal payload) := by
  rw [validate_of_flexible d hflex P v]
  cases v with
  | __Unknown ordinal payload =>
    refine ⟨?_, ?_, ?_⟩
    · intro o q h
      cases h
      rfl
    · intro h
      exact absurd rfl (h ordinal payload)
    · exact ⟨fun _ => ⟨ordinal, payload, rfl⟩, fun _ => ⟨_, rfl⟩⟩
  | member i x =>
    refine ⟨?_, ?_, ?_⟩
    · intro o q h
      cases h
    · intro _
      rfl
    · constructor
      · intro ⟨e, he⟩
        cases he
      · intro ⟨o, q, h⟩
        cases h

/-- Witness for `validate_flexible_union`: with members at ordinals 1 and 2, validating
`unknown(5, [0xAA, 0xBB])` gives `Err((5, [0xAA, 0xBB]))`, for a value type and, with a
handle next to the bytes, for a resource type. -/
theorem validate_flexible_union_witness :
    exampleFlexible.Strictness = .flexible ∧
    validate exampleFlexible (fun _ => Nat)
        (unknown exampleFlexible (fun _ => Nat) 5 ([0xAA, 0xBB] : List Nat)) =
      .error (5, ([0xAA, 0xBB] : List Nat)) ∧
    validate exampleFlexibleResource (fun _ => Nat)
        (unknown exampleFlexibleResource (fun _ => Nat) 5 (⟨[0xAA, 0xBB], [17]⟩ : UnknownData)) =
      .error (5, (⟨[0xAA, 0xBB], [17]⟩ : UnknownData)) :=
  ⟨rfl,
    (validate_flexible_union exampleFlexible rfl (fun _ => Nat)
      (unknown exampleFlexible (fun _ => Nat) 5 ([0xAA, 0xBB] : List Nat))).1 5 _ rfl,
    rfl⟩

end RustUnion

/-! ## The call-result wrapper -/

namespace LlcppResult

/-- C8: destruction of a call-result wrapper closes the handles embedded in the response at
`bytes_`, each as often as it is embedded (once each when they are distinct), when the method
has a response, the response type is resource-typed and `ok()` is true; it closes no handle
when `ok()` is false; and it closes nothing when the response type is not resource-typed or
the method has no response. It never trips the assertion of `Unwrap`. -/
theorem destructor_closes (m : Method) (mem : Nat → WireResponse) (self : WireUnownedResult) :
    (m.HasResponse = true → m.ResponseIsResource = true → self.ok = true →
      WireUnownedResult.destructor m mem self = some (mem self.bytes_).handles ∧
      ((mem self.bytes_).handles.Nodup → ∀ h ∈ (mem self.bytes_).handles,
        ∀ closed, WireUnownedResult.destructor m mem self = some closed →
          closed.count h = 1)) ∧
    (self.ok = false → WireUnownedResult.destructor m mem self = some []) ∧
    ((m.HasResponse = false ∨ m.ResponseIsResource = false) →
      WireUnownedResult.destructor m mem self = some []) := by
  refine ⟨?_, ?_, ?_⟩
  · intro h1 h2 hok
    have hd : WireUnownedResult.destructor m mem self = some (mem self.bytes_).handles := by
      simp [WireUnownedResult.destructor, WireUnownedResult.Unwrap, h1, h2, hok,
        WireResponse._CloseHandles]
    refine ⟨hd, ?_⟩
    intro hnd h hmem closed hclosed
    rw [hd] at hclosed
    cases hclosed
    exact List.count_eq_one_of_mem hnd hmem
  · intro hok
    simp [WireUnownedResult.destructor, hok]
  · intro h
    rcases h with h | h <;> simp [WireUnownedResult.destructor, h]

end LlcppResult

/-! ## EAPOL frames -/

namespace Eapol

theorem Uint16_PutUint16 (v : Nat) (hv : v < 65536) :
    Uint16 ((v >>> 8) % 256) (v % 256) = v := by
  unfold Uint16
  have hlow : v % 256 < 2 ^ 8 := Nat.mod_lt _ (by decide)
  rw [Nat.shiftLeft_eq, Nat.shiftRight_eq_div_pow, Nat.lor_comm, Nat.mul_comm,
    ← Nat.mul_add_lt_is_or hlow]
  have h8 : (2 : Nat) ^ 8 = 256 := by decide
  rw [h8]
  omega

theorem Uint16_eq_add (b0 b1 : Nat) (h1 : b1 < 256) : Uint16 b0 b1 = b0 * 256 + b1 := by
  unfold Uint16
  have hlow : b1 < 2 ^ 8 := h1
  rw [Nat.shiftLeft_eq, Nat.lor_comm, Nat.mul_comm, ← Nat.mul_add_lt_is_or hlow]

theorem ReadFull_chunk (s : List Nat) (i : Nat) (xs post : List Nat)
    (h : s.drop i = xs ++ post) :
    Reader.ReadFull ⟨s, i⟩ xs.length = (some xs, ⟨s, i + xs.length⟩) ∧
    s.drop (i + xs.length) = post := by
  have hlen : s.length - i = xs.length + post.length := by
    rw [← List.length_drop, h, List.length_append]
  constructor
  · unfold Reader.ReadFull
    by_cases hz : xs.length = 0
    · have hnil : xs = [] := List.length_eq_zero.mp hz
      subst hnil
      simp
    · have h1 : ¬ (i ≥ s.length) := by omega
      have h2 : ¬ (s.length - i < xs.length) := by omega
      simp only [hz, h1, h2, if_false, h, List.take_left]
  · rw [← List.drop_drop, h, List.drop_left]

theorem Len_eq (s : List Nat) (i : Nat) : Reader.Len ⟨s, i⟩ = (s.drop i).length := by
  simp only [Reader.Len, List.length_drop]
  split <;> omega

theorem readUint8_chunk (s : List Nat) (i x b : Nat) (post : List Nat)
    (h : s.drop i = b :: post) :
    readUint8 ⟨s, i⟩ x = (b, ⟨s, i + 1⟩) ∧ s.drop (i + 1) = post := by
  have hc := ReadFull_chunk s i [b] post h
  refine ⟨?_, hc.2⟩
  unfold readUint8
  have h1 : Reader.ReadFull ⟨s, i⟩ 1 = (some [b], ⟨s, i + 1⟩) := hc.1
  rw [h1]

theorem readUint16_chunk (s : List Nat) (i x v : Nat) (post : List Nat) (hv : v < 65536)
    (h : s.drop i = PutUint16 v ++ post) :
    readUint16 ⟨s, i⟩ x = (v, ⟨s, i + 2⟩) ∧ s.drop (i + 2) = post := by
  have hc := ReadFull_chunk s i (PutUint16 v) post h
  refine ⟨?_, hc.2⟩
  unfold readUint16
  have h1 : Reader.ReadFull ⟨s, i⟩ 2 = (some [(v >>> 8) % 256, v % 256], ⟨s, i + 2⟩) := hc.1
  rw [h1]
  simp only [Uint16_PutUint16 v hv]

theorem readBytes_chunk (s : List Nat) (i : Nat) (x xs post : List Nat)
    (hx : x.length = xs.length) (h : s.drop i = xs ++ post) :
    readBytes ⟨s, i⟩ x = (xs, ⟨s, i + xs.length⟩) ∧ s.drop (i + xs.length) = post := by
  have hc := ReadFull_chunk s i xs post h
  refine ⟨?_, hc.2⟩
  unfold readBytes
  rw [hx, hc.1]

theorem ParseKeyFrame_chunks (hdr : Header) (micBits : Int) (dt info len : Nat)
    (rc nonce iv rsc reserved mic data : List Nat)
    (htype : hdr.PacketType = PacketType_Key)
    (hmin : (KeyFrameBodyMinLenExclusiveMIC : Int) + micBits.tdiv 8 ≤ hdr.PacketBodyLength)
    (hbound : (KeyFrameBodyMinLenExclusiveMIC : Int) + micBits.tdiv 8 < 65536)
    (hinfo : info < 65536) (hlen : len < 65536)
    (hrc : rc.length = 8) (hnonce : nonce.length = 32) (hiv : iv.length = 16)
    (hrsc : rsc.length = 8) (hres : reserved.length = 8)
    (hmic : (mic.length : Int) = micBits.tdiv 8) (hdata : data.length < 65536) :
    ParseKeyFrame (some hdr)
      (dt :: (PutUint16 info ++ (PutUint16 len ++ (rc ++ (nonce ++ (iv ++ (rsc ++
        (reserved ++ (mic ++ (PutUint16 data.length ++ data))))))))))
      micBits =
    .ok { Header := hdr, DescriptorType := dt, Info := info, Length := len,
          ReplayCounter := rc, Nonce := nonce, IV := iv, RSC := rsc, MIC := mic,
          DataLength := data.length, Data := data } := by
  generalize hbody : (dt :: (PutUint16 info ++ (PutUint16 len ++ (rc ++ (nonce ++ (iv ++
    (rsc ++ (reserved ++ (mic ++ (PutUint16 data.length ++ data)))))))))) = body
  have h0 : body.drop 0 = dt :: (PutUint16 info ++ (PutUint16 len ++ (rc ++ (nonce ++ (iv ++
    (rsc ++ (reserved ++ (mic ++ (PutUint16 data.length ++ data))))))))) := by
    rw [← hbody]; rfl
  obtain ⟨e1, h1⟩ := readUint8_chunk body 0 0 dt _ h0
  obtain ⟨e2, h2⟩ := readUint16_chunk body _ 0 info _ hinfo h1
  obtain ⟨e3, h3⟩ := readUint16_chunk body _ 0 len _ hlen h2
  obtain ⟨e4, h4⟩ := readBytes_chunk body _ (List.replicate 8 0) rc _
    (by rw [List.length_replicate, hrc]) h3
  obtain ⟨e5, h5⟩ := readBytes_chunk body _ (List.replicate 32 0) nonce _
    (by rw [List.length_replicate, hnonce]) h4
  obtain ⟨e6, h6⟩ := readBytes_chunk body _ (List.replicate 16 0) iv _
    (by rw [List.length_replicate, hiv]) h5
  obtain ⟨e7, h7⟩ := readBytes_chunk body _ (List.replicate 8 0) rsc _
    (by rw [List.length_replicate, hrsc]) h6
  have h8 := (ReadFull_chunk body _ reserved _ h7).2
  rw [hres] at h8
  have hnat : (micBits.tdiv 8).toNat = mic.length := by omega
  obtain ⟨e9, h9⟩ := readBytes_chunk body _ (List.replicate (micBits.tdiv 8).toNat 0) mic _
    (by rw [List.length_replicate, hnat]) h8
  obtain ⟨e10, h10⟩ := readUint16_chunk body _ 0 data.length _ hdata h9
  obtain ⟨e11, _⟩ := readBytes_chunk body _ (List.replicate data.length 0) data []
    (by rw [List.length_replicate]) (by rw [h10, List.append_nil])
  have hc1 : ¬ (hdr.PacketType ≠ PacketType_Key) := fun h => h htype
  have hc2 : ¬ ((hdr.PacketBodyLength : Int) <
      toUint16 ((KeyFrameBodyMinLenExclusiveMIC : Int) + micBits.tdiv 8)) := by
    unfold toUint16
    omega
  have hc3 : ¬ (micBits.tdiv 8 < 0) := by omega
  have hlen11 : Reader.Len ⟨body, 0 + 1 + 2 + 2 + rc.length + nonce.length + iv.length +
      rsc.length + 8 + mic.length + 2⟩ = data.length := by
    rw [Len_eq, h10]
  unfold ParseKeyFrame
  dsimp only []
  rw [if_neg hc1, if_neg hc2, if_neg hc3]
  simp only [NewReader]
  simp only [KeyFrame.zero]
  simp only [Reader.Seek]
  rw [e1]
  dsimp only []
  rw [e2]
  dsimp only []
  rw [e3]
  dsimp only []
  rw [e4]
  dsimp only []
  rw [e5]
  dsimp only []
  rw [e6]
  dsimp only []
  rw [e7]
  dsimp only []
  rw [e9]
  dsimp only []
  rw [e10]
  dsimp only []
  rw [hlen11, if_neg (fun h => h rfl), e11]

theorem Bytes_drop_HeaderLen (f : KeyFrame) (hdata : f.Data.length ≤ 65535) :
    f.Bytes.drop HeaderLen =
      f.DescriptorType :: (PutUint16 f.Info ++ (PutUint16 f.Length ++ (f.ReplayCounter ++
        (f.Nonce ++ (f.IV ++ (f.RSC ++ (List.replicate 8 0 ++ (f.MIC ++
          (PutUint16 f.Data.length ++ f.Data))))))))) := by
  have hP : PutUint16 f.Header.PacketBodyLength =
      [(f.Header.PacketBodyLength >>> 8) % 256, f.Header.PacketBodyLength % 256] := rfl
  have hmod : f.Data.length % 65536 = f.Data.length := Nat.mod_eq_of_lt (by omega)
  unfold KeyFrame.Bytes HeaderLen
  rw [hP, hmod]
  simp only [List.append_assoc, List.cons_append, List.nil_append, List.drop_succ_cons,
    List.drop_zero]

theorem ParseHeader_short (raw : List Nat) (h : raw.length < HeaderLen) :
    ParseHeader raw = .error .invalidHeader := by
  have hlen : Reader.Len ⟨raw, 0⟩ < HeaderLen := by
    rw [Len_eq]
    exact h
  unfold ParseHeader NewReader
  dsimp only []
  rw [if_pos hlen]

theorem ParseHeader_cons (b0 b1 b2 b3 : Nat) (rest : List Nat) :
    ParseHeader (b0 :: b1 :: b2 :: b3 :: rest) = .ok ⟨b0, b1, Uint16 b2 b3⟩ := by
  have hlen : ¬ (Reader.Len ⟨b0 :: b1 :: b2 :: b3 :: rest, 0⟩ < HeaderLen) := by
    rw [Len_eq]
    simp [HeaderLen]
  have hread : Reader.ReadFull ⟨b0 :: b1 :: b2 :: b3 :: rest, 0⟩ 4 =
      (some [b0, b1, b2, b3], ⟨b0 :: b1 :: b2 :: b3 :: rest, 0 + 4⟩) :=
    (ReadFull_chunk (b0 :: b1 :: b2 :: b3 :: rest) 0 [b0, b1, b2, b3] rest rfl).1
  unfold ParseHeader NewReader
  dsimp only []
  rw [if_neg hlen]
  unfold readHeader
  rw [hread]

/-- C9: for every key frame `f` (a value of the Go type) and every `micBits` with
`f.Header.PacketType = PacketType_Key`, `len(f.MIC) = micBits/8`,
`79 + micBits/8 ≤ f.Header.PacketBodyLength`, `79 + micBits/8 < 65536`,
`len(f.Data) ≤ 65535` and `f.DataLength = len(f.Data)`, parsing the bytes of `f` after the
header succeeds and returns a frame equal to `f` in every field. -/
theorem ParseKeyFrame_Bytes (f : KeyFrame) (micBits : Int) (hf : f.WellTyped)
    (htype : f.Header.PacketType = PacketType_Key)
    (hmic : (f.MIC.length : Int) = micBits.tdiv 8)
    (hmin : (KeyFrameBodyMinLenExclusiveMIC : Int) + micBits.tdiv 8 ≤
      f.Header.PacketBodyLength)
    (hbound : (KeyFrameBodyMinLenExclusiveMIC : Int) + micBits.tdiv 8 < 65536)
    (hdata : f.Data.length ≤ 65535) (hdl : f.DataLength = f.Data.length) :
    ParseKeyFrame (some f.Header) (f.Bytes.drop HeaderLen) micBits = .ok f := by
  obtain ⟨_, _, hinfo, hlen, ⟨hrc, _⟩, ⟨hnonce, _⟩, ⟨hiv, _⟩, ⟨hrsc, _⟩, _, _, _⟩ := hf
  rw [Bytes_drop_HeaderLen f hdata,
    ParseKeyFrame_chunks f.Header micBits f.DescriptorType f.Info f.Length f.ReplayCounter
      f.Nonce f.IV f.RSC (List.replicate 8 0) f.MIC f.Data htype hmin hbound hinfo hlen hrc
      hnonce hiv hrsc (List.length_replicate 8 0) hmic (by omega),
    ← hdl]

/-- Witness for `ParseKeyFrame_Bytes`: a frame with a 16-byte MIC and three bytes of key
data, parsed with `micBits = 128`. -/
theorem ParseKeyFrame_Bytes_witness :
    exampleFrame.WellTyped ∧ exampleFrame.Header.PacketType = PacketType_Key ∧
    (exampleFrame.MIC.length : Int) = (128 : Int).tdiv 8 ∧
    exampleFrame.Data.length ≤ 65535 ∧ exampleFrame.DataLength = exampleFrame.Data.length ∧
    ParseKeyFrame (some exampleFrame.Header) (exampleFrame.Bytes.drop HeaderLen) 128 =
      .ok exampleFrame :=
  ⟨by decide, rfl, by decide, by decide, rfl,
    ParseKeyFrame_Bytes exampleFrame 128 (by decide) rfl (by decide) (by decide) (by decide)
      (by decide) rfl⟩

/-- C10: for every byte slice `raw`, `ParseHeader(raw)` returns an error if and only if
`len(raw) < HeaderLen`; otherwise it returns the header with `Version = raw[0]`,
`PacketType = raw[1]` and `PacketBodyLength = raw[2]*256 + raw[3]`, whatever follows the
fourth byte; and for every key frame `f`, `ParseHeader(f.Bytes())` returns `f.Header`. -/
theorem ParseHeader_spec (raw : List Nat) (hraw : IsBytes raw) (f : KeyFrame)
    (hf : f.WellTyped) :
    ((∃ e, ParseHeader raw = .error e) ↔ raw.length < HeaderLen) ∧
    (∀ b0 b1 b2 b3 rest, raw = b0 :: b1 :: b2 :: b3 :: rest →
      ParseHeader raw = .ok ⟨b0, b1, b2 * 256 + b3⟩) ∧
    (HeaderLen ≤ raw.length → ParseHeader raw = ParseHeader (raw.take HeaderLen)) ∧
    ParseHeader f.Bytes = .ok f.Header := by
  have hcons : ∀ b0 b1 b2 b3 rest, raw = b0 :: b1 :: b2 :: b3 :: rest →
      ParseHeader raw = .ok ⟨b0, b1, b2 * 256 + b3⟩ := by
    intro b0 b1 b2 b3 rest hshape
    have hb3 : b3 < 256 := hraw b3 (by rw [hshape]; simp)
    rw [hshape, ParseHeader_cons, Uint16_eq_add b2 b3 hb3]
  refine ⟨?_, hcons, ?_, ?_⟩
  · constructor
    · intro ⟨e, he⟩
      by_contra hge
      match raw, hcons, he, hge with
      | [], _, _, hge => exact hge (by simp [HeaderLen])
      | [_], _, _, hge => exact hge (by simp [HeaderLen])
      | [_, _], _, _, hge => exact hge (by simp [HeaderLen])
      | [_, _, _], _, _, hge => exact hge (by simp [HeaderLen])
      | b0 :: b1 :: b2 :: b3 :: rest, hcons, he, _ =>
        rw [hcons b0 b1 b2 b3 rest rfl] at he
        cases he
    · intro hlt
      exact ⟨_, ParseHeader_short raw hlt⟩
  · intro hge
    match raw, hge with
    | [], hge => exact absurd hge (by simp [HeaderLen])
    | [_], hge => exact absurd hge (by simp [HeaderLen])
    | [_, _], hge => exact absurd hge (by simp [HeaderLen])
    | [_, _, _], hge => exact absurd hge (by simp [HeaderLen])
    | b0 :: b1 :: b2 :: b3 :: rest, _ =>
      have htake : (b0 :: b1 :: b2 :: b3 :: rest).take HeaderLen = [b0, b1, b2, b3] := by
        simp [HeaderLen]
      rw [htake, ParseHeader_cons, ParseHeader_cons]
  · have hshape : f.Bytes = f.Header.Version :: f.Header.PacketType ::
        ((f.Header.PacketBodyLength >>> 8) % 256) :: (f.Header.PacketBodyLength % 256) ::
        (f.Bytes.drop HeaderLen) := by
      unfold KeyFrame.Bytes HeaderLen PutUint16
      simp only [List.append_assoc, List.cons_append, List.nil_append, List.drop_succ_cons,
        List.drop_zero]
    rw [hshape, ParseHeader_cons, Uint16_PutUint16 _ hf.1.2.2]

/-- Witness for `ParseHeader_spec`: a six-byte slice and the bytes of a key frame. -/
theorem ParseHeader_spec_witness :
    IsBytes [2, 3, 0, 95, 7, 7] ∧ exampleFrame.WellTyped ∧
    ParseHeader [2, 3, 0, 95, 7, 7] = .ok ⟨2, 3, 95⟩ ∧
    ParseHeader [2, 3, 0] = .error .invalidHeader ∧
    ParseHeader exampleFrame.Bytes = .ok exampleFrame.Header :=
  ⟨by decide, by decide,
    (ParseHeader_spec [2, 3, 0, 95, 7, 7] (by decide) exampleFrame (by decide)).2.1
      2 3 0 95 [7, 7] rfl,
    rfl,
    (ParseHeader_spec [2, 3, 0, 95, 7, 7] (by decide) exampleFrame (by decide)).2.2.2⟩

end Eapol

/-! ## Strict and flexible declarations side by side -/

/-- C12: for every enumeration and every union declaration, the cases of the emitted type
are one case per declared member, in declaration order (case `i` is the one of member `i`),
followed by exactly one case `__Unknown` when the declaration is flexible and by nothing when
it is strict; the case list depends on nothing but the declaration (its members, its
strictness and, for the unknown case of a union, its resource flag), so two emissions from
the same declaration give the same list. -/
theorem emitted_cases_follow_declaration (e : RustEnum.EnumDeclaration)
    (u : RustUnion.UnionDeclaration) :
    (e.cases.length = e.Members.length + (if e.IsFlexible then 1 else 0) ∧
     (∀ i (h : i < e.Members.length),
        e.cases[i]? = some (RustEnum.EmittedCase.named (e.Members.get ⟨i, h⟩).Name
          (if e.IsStrict then some (e.Members.get ⟨i, h⟩).Value else none))) ∧
     (e.IsFlexible = true → e.cases[e.Members.length]? = some RustEnum.EmittedCase.__Unknown) ∧
     (RustEnum.EmittedCase.__Unknown ∈ e.cases ↔ e.IsFlexible = true) ∧
     (∀ e2 : RustEnum.EnumDeclaration, e2.Members = e.Members → e2.Strictness = e.Strictness →
        e2.cases = e.cases)) ∧
    (u.cases.length = u.Members.length + (if u.IsFlexible then 1 else 0) ∧
     (∀ i (h : i < u.Members.length),
        u.cases[i]? = some (RustUnion.EmittedCase.named (u.Members.get ⟨i, h⟩).Name
          (u.Members.get ⟨i, h⟩).TypeName)) ∧
     (u.IsFlexible = true →
        u.cases[u.Members.length]? = some (RustUnion.EmittedCase.__Unknown u.IsResourceType)) ∧
     ((∃ r, RustUnion.EmittedCase.__Unknown r ∈ u.cases) ↔ u.IsFlexible = true) ∧
     (∀ u2 : RustUnion.UnionDeclaration, u2.Members = u.Members →
        u2.Strictness = u.Strictness → u2.IsResourceType = u.IsResourceType →
        u2.cases = u.cases)) := by
  refine ⟨⟨?_, ?_, ?_, ?_, ?_⟩, ⟨?_, ?_, ?_, ?_, ?_⟩⟩
  · unfold RustEnum.EnumDeclaration.cases
    cases e.IsFlexible <;> simp
  · intro i h
    unfold RustEnum.EnumDeclaration.cases
    rw [List.getElem?_append_left (by simpa using h)]
    simp [h]
  · intro hflex
    unfold RustEnum.EnumDeclaration.cases
    rw [hflex, List.getElem?_append_right (by simp)]
    simp
  · unfold RustEnum.EnumDeclaration.cases
    cases e.IsFlexible <;> simp
  · intro e2 hm hs
    unfold RustEnum.EnumDeclaration.cases RustEnum.EnumDeclaration.IsStrict
      RustEnum.EnumDeclaration.IsFlexible
    rw [hm, hs]
  · unfold RustUnion.UnionDeclaration.cases
    cases u.IsFlexible <;> simp
  · intro i h
    unfold RustUnion.UnionDeclaration.cases
    rw [List.getElem?_append_left (by simpa using h)]
    simp [h]
  · intro hflex
    unfold RustUnion.UnionDeclaration.cases
    rw [hflex, List.getElem?_append_right (by simp)]
    simp
  · unfold RustUnion.UnionDeclaration.cases
    cases u.IsFlexible <;> simp
  · intro u2 hm hs hr
    unfold RustUnion.UnionDeclaration.cases RustUnion.UnionDeclaration.IsFlexible
    rw [hm, hs, hr]

/-- C13: for every strict declaration the unknown-value operations are constant: for every
strict bit-flag value `has_unknown_bits()` is `false` and `get_unknown_bits()` is `0`; for
every value `v` of a strict enumeration and of a strict union, value-typed or resource-typed,
`validate(v)` is `Ok(v)` and `is_unknown(v)` is `false`. -/
theorem strict_operations_are_constant :
    (∀ (d : RustBits.BitsDeclaration) (v : RustBits.BitsValue), d.Strictness = .strict →
      RustBits.has_unknown_bits d v = false ∧ RustBits.get_unknown_bits d v = 0) ∧
    (∀ (d : RustEnum.EnumDeclaration) (v : RustEnum.EnumValue d), d.Strictness = .strict →
      RustEnum.validate d v = .ok v ∧ RustEnum.is_unknown d v = false) ∧
    (∀ (d : RustUnion.UnionDeclaration) (P : Fin d.Members.length → Type)
        (v : RustUnion.UnionValue d P), d.Strictness = .strict →
      RustUnion.validate d P v = .ok v ∧ RustUnion.is_unknown d P v = false) := by
  refine ⟨?_, ?_, ?_⟩
  · intro d v hstrict
    have hs : d.IsStrict = true := by
      simp [RustBits.BitsDeclaration.IsStrict, hstrict, Strictness.IsStrict]
    simp [RustBits.has_unknown_bits, RustBits.get_unknown_bits, hs]
  · intro d v hstrict
    have hs : d.IsStrict = true := by
      simp [RustEnum.EnumDeclaration.IsStrict, hstrict, Strictness.IsStrict]
    simp [RustEnum.validate, RustEnum.is_unknown, hs]
  · intro d P v hstrict
    have hs : d.IsStrict = true := by
      simp [RustUnion.UnionDeclaration.IsStrict, hstrict, Strictness.IsStrict]
    unfold RustUnion.validate RustUnion.is_unknown RustUnion.UnionDeclaration.IsValueType
    by_cases hr : d.IsResourceType = true <;> simp [hs, hr]

/-- Witness for `strict_operations_are_constant`: a strict set with a stored bit outside its
members, a member of a strict enumeration and a member of a strict union. -/
theorem strict_operations_are_constant_witness :
    (RustBits.has_unknown_bits RustBits.exampleStrict ⟨0b00000110⟩ = false ∧
      RustBits.get_unknown_bits RustBits.exampleStrict ⟨0b00000110⟩ = 0) ∧
    (RustEnum.validate RustEnum.exampleStrict (.member ⟨1, by decide⟩) =
        .ok (.member ⟨1, by decide⟩) ∧
      RustEnum.is_unknown RustEnum.exampleStrict (.member ⟨1, by decide⟩) = false) ∧
    (RustUnion.validate RustUnion.exampleStrict (fun _ => Nat) (.member ⟨0, by decide⟩ 4) =
        .ok (.member ⟨0, by decide⟩ 4) ∧
      RustUnion.is_unknown RustUnion.exampleStrict (fun _ => Nat)
        (.member ⟨0, by decide⟩ 4) = false) :=
  ⟨strict_operations_are_constant.1 RustBits.exampleStrict ⟨0b00000110⟩ rfl,
    strict_operations_are_constant.2.1 RustEnum.exampleStrict (.member ⟨1, by decide⟩) rfl,
    strict_operations_are_constant.2.2 RustUnion.exampleStrict (fun _ => Nat)
      (.member ⟨0, by decide⟩ 4) rfl⟩

/-- C16: for every union declaration, value-typed or resource-typed, and every value `v` of
it, `is_unknown(v)` is true if and only if `validate(v)` returns an error, and the same holds
for every value of every enumeration; in particular for the flexible ones. -/
theorem is_unknown_iff_validate_fails :
    (∀ (d : RustUnion.UnionDeclaration) (P : Fin d.Members.length → Type)
        (v : RustUnion.UnionValue d P),
      RustUnion.is_unknown d P v = true ↔ ∃ e, RustUnion.validate d P v = .error e) ∧
    (∀ (d : RustEnum.EnumDeclaration) (v : RustEnum.EnumValue d),
      RustEnum.is_unknown d v = true ↔ ∃ e, RustEnum.validate d v = .error e) := by
  constructor
  · intro d P v
    unfold RustUnion.is_unknown RustUnion.validate RustUnion.UnionDeclaration.IsValueType
      RustUnion.UnionDeclaration.IsFlexible RustUnion.UnionDeclaration.IsStrict
      Strictness.IsFlexible
    by_cases hs : d.Strictness.IsStrict = true <;> by_cases hr : d.IsResourceType = true <;>
      cases v <;> simp [hs, hr]
  · intro d v
    unfold RustEnum.is_unknown
    cases hs : d.IsStrict
    · simp only [Bool.false_eq_true, if_false]
      cases hv : RustEnum.validate d v <;> simp [RustEnum.is_err]
    · simp [RustEnum.validate, hs]

namespace RustEnum

/-- C17: for every enumeration declaration and every primitive `p` the two decoders agree:
if `from_primitive(p)` is `Some(m)` then `from_primitive_allow_unknown(p)` is `m`; if it is
`None` then `from_primitive_allow_unknown(p)` is the unknown variant carrying `p`; so
`from_primitive_allow_unknown` returns an unknown variant only with the value `p`, which is
then the value of no named member. -/
theorem decoders_agree (d : EnumDeclaration) (p : Int) :
    (∀ m, from_primitive d p = some m → from_primitive_allow_unknown d p = m) ∧
    (from_primitive d p = none → from_primitive_allow_unknown d p = .__Unknown p) ∧
    (∀ x, from_primitive_allow_unknown d p = .__Unknown x →
      x = p ∧ ∀ m ∈ d.Members, m.Value ≠ x) := by
  unfold from_primitive from_primitive_allow_unknown
  cases h : matchMembers d.Members p with
  | none =>
    refine ⟨?_, ?_, ?_⟩
    · intro m hm
      cases hm
    · intro _
      rfl
    · intro x hx
      cases hx
      exact ⟨rfl, (matchMembers_none_iff d.Members p).mp h⟩
  | some i =>
    refine ⟨?_, ?_, ?_⟩
    · intro m hm
      cases hm
      rfl
    · intro hnone
      cases hnone
    · intro x hx
      cases hx

theorem from_primitive_of_no_member (d : EnumDeclaration) (p : Int)
    (h : ∀ m ∈ d.Members, m.Value ≠ p) : from_primitive d p = none := by
  unfold from_primitive
  rw [(matchMembers_none_iff d.Members p).mpr h]

theorem from_primitive_allow_unknown_of_no_member (d : EnumDeclaration) (p : Int)
    (h : ∀ m ∈ d.Members, m.Value ≠ p) : from_primitive_allow_unknown d p = .__Unknown p := by
  unfold from_primitive_allow_unknown
  rw [(matchMembers_none_iff d.Members p).mpr h]

/-- C14, for the generator step as the spec describes it: whenever generation of a flexible
enumeration succeeds, the value carried by the result of `unknown()` differs from the value
of every named member, so that `from_primitive` rejects it and `from_primitive_allow_unknown`
maps it to `unknown()`; and generation fails with `SentinelCollision` when the chosen
sentinel is the value of a named member. -/
theorem generateFlexible_sentinel (Name : String) (Members : List EnumMember) (maxValue : Int)
    (pinned : Option Int) :
    (∀ d, generateFlexible Name Members maxValue pinned = .ok d →
      d.Strictness = .flexible ∧ d.Members = Members ∧
      unknown d = .__Unknown (pinned.getD maxValue) ∧
      (∀ m ∈ d.Members, m.Value ≠ into_primitive d (unknown d)) ∧
      from_primitive d (into_primitive d (unknown d)) = none ∧
      from_primitive_allow_unknown d (into_primitive d (unknown d)) = unknown d) ∧
    ((∃ m ∈ Members, m.Value = pinned.getD maxValue) →
      generateFlexible Name Members maxValue pinned = .error .SentinelCollision) := by
  constructor
  · intro d hd
    unfold generateFlexible at hd
    dsimp only [] at hd
    split at hd
    · cases hd
    · rename_i hany
      cases hd
      have hno : ∀ m ∈ Members, m.Value ≠ pinned.getD maxValue := by
        intro m hm heq
        apply hany
        exact List.any_eq_true.mpr ⟨m, hm, by simpa using heq⟩
      have hu : ∀ d : EnumDeclaration, into_primitive d (unknown d) = d.UnknownValueForTmpl :=
        fun d => into_primitive_unknown d _
      refine ⟨rfl, rfl, rfl, ?_, ?_, ?_⟩
      · intro m hm
        rw [hu]
        exact hno m hm
      · rw [hu]
        exact from_primitive_of_no_member _ _ hno
      · rw [hu]
        exact from_primitive_allow_unknown_of_no_member _ _ hno
  · intro ⟨m, hm, heq⟩
    unfold generateFlexible
    dsimp only []
    rw [if_pos (List.any_eq_true.mpr ⟨m, hm, by simpa using heq⟩)]

end RustEnum

namespace LlcppResult

theorem value_eq_Unwrap (self : WireUnownedResult) : self.value = self.Unwrap := by
  unfold WireUnownedResult.value
  cases self.Unwrap <;> rfl

theorem value_const_eq_Unwrap (self : WireUnownedResult) : self.value_const = self.Unwrap := by
  unfold WireUnownedResult.value_const WireUnownedResult.Unwrap_const WireUnownedResult.Unwrap
  cases self.ok <;> rfl

/-- C15: every payload accessor of the call-result wrapper (`Unwrap`, `value`, `operator->`,
`operator*`, const and non-const) returns what `Unwrap` returns, which asserts `ok()`: when
`ok()` holds the assertion passes and the result is the address `bytes_`, when it does not
the assertion fails. For a wrapper built by the constructor that takes the response buffer,
`bytes_` is `_response_bytes`, so under `ok()` every accessor returns the address of the
caller's buffer itself; a wrapper built from a failed `::fidl::Result` gives no accessor a
payload. -/
theorem accessors_view_response_buffer (m : Method) (_response_bytes : Nat)
    (requestStatus : Int) (requestError : Option String) (self : WireUnownedResult) :
    (self.Unwrap_const = self.Unwrap ∧ self.value = self.Unwrap ∧
      self.value_const = self.Unwrap ∧ self.arrow = self.Unwrap ∧
      self.arrow_const = self.Unwrap ∧ self.star = self.Unwrap ∧
      self.star_const = self.Unwrap) ∧
    (self.ok = true → self.Unwrap = some self.bytes_) ∧
    (self.ok = false → self.Unwrap = none) ∧
    (WireUnownedResult.new m _response_bytes requestStatus requestError).bytes_ =
      _response_bytes ∧
    ((WireUnownedResult.new m _response_bytes requestStatus requestError).ok = true →
      (WireUnownedResult.new m _response_bytes requestStatus requestError).Unwrap =
        some _response_bytes) ∧
    (∀ indeterminate, requestStatus ≠ ZX_OK →
      (WireUnownedResult.ofResult requestStatus requestError indeterminate).Unwrap = none) := by
  have hv := value_eq_Unwrap self
  have hvc := value_const_eq_Unwrap self
  refine ⟨⟨?_, hv, hvc, ?_, ?_, ?_, ?_⟩, ?_, ?_, rfl, ?_, ?_⟩
  · unfold WireUnownedResult.Unwrap_const WireUnownedResult.Unwrap
    rfl
  · unfold WireUnownedResult.arrow
    rw [hv]
    cases self.Unwrap <;> rfl
  · unfold WireUnownedResult.arrow_const
    rw [hvc]
    cases self.Unwrap <;> rfl
  · exact hv
  · exact hvc
  · intro hok
    simp [WireUnownedResult.Unwrap, hok]
  · intro hok
    simp [WireUnownedResult.Unwrap, hok]
  · intro hok
    unfold WireUnownedResult.Unwrap
    rw [if_pos hok]
    rfl
  · intro indeterminate hne
    simp [WireUnownedResult.Unwrap, WireUnownedResult.ok, WireUnownedResult.ofResult, hne]

/-- Witness for `accessors_view_response_buffer`: a successful call whose response buffer
is at address 4096. -/
theorem accessors_view_response_buffer_witness :
    (WireUnownedResult.new ⟨true, true⟩ 4096 ZX_OK none).ok = true ∧
    (WireUnownedResult.new ⟨true, true⟩ 4096 ZX_OK none).Unwrap = some 4096 ∧
    (WireUnownedResult.new ⟨true, true⟩ 4096 ZX_OK none).arrow =
      (WireUnownedResult.new ⟨true, true⟩ 4096 ZX_OK none).Unwrap :=
  ⟨rfl,
    (accessors_view_response_buffer ⟨true, true⟩ 4096 ZX_OK none
      (WireUnownedResult.new ⟨true, true⟩ 4096 ZX_OK none)).2.2.2.2.1 rfl,
    (accessors_view_response_buffer ⟨true, true⟩ 4096 ZX_OK none
      (WireUnownedResult.new ⟨true, true⟩ 4096 ZX_OK none)).1.2.2.2.1⟩

end LlcppResult

namespace Eapol

/-- C11 fails on the code: with a header that declares a body of 100 bytes, an empty body
and `micBits = 128`, `ParseKeyFrame` returns a frame and no error. Every read fails and is
ignored, `DataLength` stays 0 and no byte remains, so the length check passes although the
body has 0 bytes and not `79 + 128/8 + 0 = 95`, and the body, shorter than `79 + 128/8`
bytes, is not rejected. -/
theorem ParseKeyFrame_accepts_empty_body :
    ParseKeyFrame (some ⟨2, 3, 100⟩) [] 128 =
      .ok { KeyFrame.zero with Header := ⟨2, 3, 100⟩, MIC := List.replicate 16 0 } ∧
    ((128 : Int).tdiv 8).toNat = 16 ∧
    ([] : List Nat).length < KeyFrameBodyMinLenExclusiveMIC + ((128 : Int).tdiv 8).toNat ∧
    ([] : List Nat).length ≠ KeyFrameBodyMinLenExclusiveMIC + ((128 : Int).tdiv 8).toNat +
      ({ KeyFrame.zero with Header := ⟨2, 3, 100⟩, MIC := List.replicate 16 0 } :
        KeyFrame).DataLength :=
  ⟨by rfl, by rfl, by decide, by decide⟩

end Eapol

namespace Eapol

theorem PutUint16_Uint16 (b0 b1 : Nat) (h0 : b0 < 256) (h1 : b1 < 256) :
    PutUint16 (Uint16 b0 b1) = [b0, b1] := by
  rw [Uint16_eq_add b0 b1 h1]
  unfold PutUint16
  rw [Nat.shiftRight_eq_div_pow]
  have h8 : (2 : Nat) ^ 8 = 256 := by decide
  rw [h8]
  have ha : (b0 * 256 + b1) / 256 % 256 = b0 := by omega
  have hb : (b0 * 256 + b1) % 256 = b1 := by omega
  rw [ha, hb]

theorem Uint16_lt (b0 b1 : Nat) (h0 : b0 < 256) (h1 : b1 < 256) : Uint16 b0 b1 < 65536 := by
  rw [Uint16_eq_add b0 b1 h1]
  omega

theorem exists_append_of_le_length (l : List Nat) (n : Nat) (h : n ≤ l.length) :
    ∃ a b, l = a ++ b ∧ a.length = n ∧ b.length = l.length - n :=
  ⟨l.take n, l.drop n, (List.take_append_drop n l).symm,
    by rw [List.length_take]; omega, List.length_drop n l⟩

theorem body_chunks (body : List Nat) (m d : Nat) (hlen : body.length = 79 + m + d) :
    ∃ dt i0 i1 l0 l1 rc nonce iv rsc res mic d0 d1 data,
      body = [dt] ++ ([i0, i1] ++ ([l0, l1] ++ (rc ++ (nonce ++ (iv ++ (rsc ++ (res ++
        (mic ++ ([d0, d1] ++ data))))))))) ∧
      rc.length = 8 ∧ nonce.length = 32 ∧ iv.length = 16 ∧ rsc.length = 8 ∧
      res.length = 8 ∧ mic.length = m ∧ data.length = d := by
  obtain ⟨c1, t1, hb, hc1, ht1⟩ := exists_append_of_le_length body 1 (by omega)
  obtain ⟨c2, t2, rfl, hc2, ht2⟩ := exists_append_of_le_length t1 2 (by omega)
  obtain ⟨c3, t3, rfl, hc3, ht3⟩ := exists_append_of_le_length t2 2 (by omega)
  obtain ⟨rc, t4, rfl, hrc, ht4⟩ := exists_append_of_le_length t3 8 (by omega)
  obtain ⟨nonce, t5, rfl, hnonce, ht5⟩ := exists_append_of_le_length t4 32 (by omega)
  obtain ⟨iv, t6, rfl, hiv, ht6⟩ := exists_append_of_le_length t5 16 (by omega)
  obtain ⟨rsc, t7, rfl, hrsc, ht7⟩ := exists_append_of_le_length t6 8 (by omega)
  obtain ⟨res, t8, rfl, hres, ht8⟩ := exists_append_of_le_length t7 8 (by omega)
  obtain ⟨mic, t9, rfl, hmic, ht9⟩ := exists_append_of_le_length t8 m (by omega)
  obtain ⟨c10, data, rfl, hc10, hdata⟩ := exists_append_of_le_length t9 2 (by omega)
  obtain ⟨dt, rfl⟩ := List.length_eq_one.mp hc1
  obtain ⟨i0, i1, rfl⟩ := List.length_eq_two.mp hc2
  obtain ⟨l0, l1, rfl⟩ := List.length_eq_two.mp hc3
  obtain ⟨d0, d1, rfl⟩ := List.length_eq_two.mp hc10
  exact ⟨dt, i0, i1, l0, l1, rc, nonce, iv, rsc, res, mic, d0, d1, data, hb, hrc, hnonce, hiv,
    hrsc, hres, hmic, by omega⟩

/-- C18: for every header `hdr` with `PacketType_Key`, every `micBits ≥ 0` and every body
of `79 + micBits/8 + d` bytes, where `d` is the big-endian 16-bit value at offset
`77 + micBits/8` of the body and `hdr.PacketBodyLength ≥ 79 + micBits/8`, `ParseKeyFrame`
succeeds, and the bytes of the returned frame after the 4 header bytes are the body with the
8 reserved bytes at offsets 69 to 76 replaced by zero; so they are the body itself if and
only if those reserved bytes are all zero. -/
theorem ParseKeyFrame_reserialize (hdr : Header) (body : List Nat) (micBits : Int)
    (hhdr : hdr.WellTyped) (hbody : IsBytes body) (hmicBits : 0 ≤ micBits)
    (htype : hdr.PacketType = PacketType_Key)
    (hmin : (KeyFrameBodyMinLenExclusiveMIC : Int) + micBits.tdiv 8 ≤ hdr.PacketBodyLength)
    (hlen : body.length = KeyFrameBodyMinLenExclusiveMIC + (micBits.tdiv 8).toNat +
      Uint16 (body.getD (77 + (micBits.tdiv 8).toNat) 0)
        (body.getD (78 + (micBits.tdiv 8).toNat) 0)) :
    ∃ frame, ParseKeyFrame (some hdr) body micBits = .ok frame ∧
      frame.Bytes.drop HeaderLen = body.take 69 ++ List.replicate 8 0 ++ body.drop 77 ∧
      (frame.Bytes.drop HeaderLen = body ↔ (body.drop 69).take 8 = List.replicate 8 0) := by
  have htd : 0 ≤ micBits.tdiv 8 := Int.tdiv_nonneg hmicBits (by decide)
  have hk : KeyFrameBodyMinLenExclusiveMIC = 79 := rfl
  obtain ⟨dt, i0, i1, l0, l1, rc, nonce, iv, rsc, res, mic, d0, d1, data, hb, hrc, hnonce,
    hiv, hrsc, hres, hmic, hdata⟩ := body_chunks body (micBits.tdiv 8).toNat _ (hk ▸ hlen)
  have hmem : ∀ x, x ∈ [i0, i1, l0, l1, d0, d1] → x < 256 := by
    intro x hx
    apply hbody x
    rw [hb]
    simp only [List.mem_cons, List.mem_append, List.mem_singleton, List.not_mem_nil,
      or_false] at hx ⊢
    tauto
  have hi0 := hmem i0 (by simp)
  have hi1 := hmem i1 (by simp)
  have hl0 := hmem l0 (by simp)
  have hl1 := hmem l1 (by simp)
  have hd0 := hmem d0 (by simp)
  have hd1 := hmem d1 (by simp)
  have hP : body = ([dt] ++ ([i0, i1] ++ ([l0, l1] ++ (rc ++ (nonce ++ (iv ++ (rsc ++
      (res ++ mic)))))))) ++ (d0 :: d1 :: data) := by
    rw [hb]
    simp only [List.append_assoc, List.cons_append, List.nil_append]
  have hPlen : ([dt] ++ ([i0, i1] ++ ([l0, l1] ++ (rc ++ (nonce ++ (iv ++ (rsc ++
      (res ++ mic)))))))).length = 77 + (micBits.tdiv 8).toNat := by
    simp only [List.length_append, List.length_cons, List.length_nil]
    omega
  have hg0 : body.getD (77 + (micBits.tdiv 8).toNat) 0 = d0 := by
    rw [hP, List.getD_append_right _ _ _ _ (by omega), hPlen, Nat.sub_self]
    rfl
  have hg1 : body.getD (78 + (micBits.tdiv 8).toNat) 0 = d1 := by
    have h78 : 78 + (micBits.tdiv 8).toNat - (77 + (micBits.tdiv 8).toNat) = 1 := by omega
    rw [hP, List.getD_append_right _ _ _ _ (by omega), hPlen, h78]
    rfl
  rw [hg0, hg1] at hdata
  have hdlt : data.length < 65536 := by
    rw [hdata]
    exact Uint16_lt d0 d1 hd0 hd1
  have hbound : (KeyFrameBodyMinLenExclusiveMIC : Int) + micBits.tdiv 8 < 65536 := by
    have hpbl := hhdr.2.2
    omega
  have hmicInt : (mic.length : Int) = micBits.tdiv 8 := by omega
  have hform : body = dt :: (PutUint16 (Uint16 i0 i1) ++ (PutUint16 (Uint16 l0 l1) ++
      (rc ++ (nonce ++ (iv ++ (rsc ++ (res ++ (mic ++
        (PutUint16 data.length ++ data))))))))) := by
    rw [PutUint16_Uint16 i0 i1 hi0 hi1, PutUint16_Uint16 l0 l1 hl0 hl1, hdata,
      PutUint16_Uint16 d0 d1 hd0 hd1]
    exact hb
  have hparse := ParseKeyFrame_chunks hdr micBits dt (Uint16 i0 i1) (Uint16 l0 l1) rc nonce
    iv rsc res mic data htype hmin hbound (Uint16_lt i0 i1 hi0 hi1) (Uint16_lt l0 l1 hl0 hl1)
    hrc hnonce hiv hrsc hres hmicInt hdlt
  rw [← hform] at hparse
  have hbytes := Bytes_drop_HeaderLen
    { Header := hdr, DescriptorType := dt, Info := Uint16 i0 i1, Length := Uint16 l0 l1,
      ReplayCounter := rc, Nonce := nonce, IV := iv, RSC := rsc, MIC := mic,
      DataLength := data.length, Data := data } (Nat.le_of_lt_succ hdlt)
  dsimp only [] at hbytes
  obtain ⟨A, hAdef⟩ : ∃ A, A = dt :: (PutUint16 (Uint16 i0 i1) ++
      (PutUint16 (Uint16 l0 l1) ++ (rc ++ (nonce ++ (iv ++ rsc))))) := ⟨_, rfl⟩
  obtain ⟨B, hBdef⟩ : ∃ B, B = mic ++ (PutUint16 data.length ++ data) := ⟨_, rfl⟩
  have hAlen : A.length = 69 := by
    rw [hAdef]
    simp only [List.length_append, List.length_cons, PutUint16, List.length_nil]
    omega
  have hA : body = A ++ (res ++ B) := by
    rw [hform, hAdef, hBdef]
    simp only [List.append_assoc, List.cons_append]
  have hbytesA : List.drop HeaderLen (KeyFrame.Bytes
      { Header := hdr, DescriptorType := dt, Info := Uint16 i0 i1, Length := Uint16 l0 l1,
        ReplayCounter := rc, Nonce := nonce, IV := iv, RSC := rsc, MIC := mic,
        DataLength := data.length, Data := data }) =
      A ++ (List.replicate 8 0 ++ B) := by
    rw [hbytes, hAdef, hBdef]
    simp only [List.append_assoc, List.cons_append]
  have htake : body.take 69 = A := by
    rw [hA]
    exact List.take_left' hAlen
  have hdrop69 : body.drop 69 = res ++ B := by
    rw [hA]
    exact List.drop_left' hAlen
  have hdrop77 : body.drop 77 = B := by
    have h77 : body.drop 77 = (body.drop 69).drop 8 := by rw [List.drop_drop]
    rw [h77, hdrop69]
    exact List.drop_left' hres
  have hmid : (body.drop 69).take 8 = res := by
    rw [hdrop69]
    exact List.take_left' hres
  refine ⟨_, hparse, ?_, ?_⟩
  · rw [hbytesA, htake, hdrop77, List.append_assoc]
  · rw [hbytesA, hmid]
    constructor
    · intro h
      rw [hA] at h
      exact ((List.append_left_inj B).mp ((List.append_right_inj A).mp h)).symm
    · intro h
      rw [hA, h]

/-- Witness for `ParseKeyFrame_reserialize`: a body of 98 bytes with a 16-byte MIC, three
bytes of key data and reserved bytes that are not zero. -/
theorem ParseKeyFrame_reserialize_witness :
    IsBytes exampleBody ∧ exampleBody.length = 98 ∧
    (exampleBody.drop 69).take 8 ≠ List.replicate 8 0 ∧
    ∃ frame, ParseKeyFrame (some ⟨2, 3, 98⟩) exampleBody 128 = .ok frame ∧
      frame.Bytes.drop HeaderLen =
        exampleBody.take 69 ++ List.replicate 8 0 ++ exampleBody.drop 77 ∧
      (frame.Bytes.drop HeaderLen = exampleBody ↔
        (exampleBody.drop 69).take 8 = List.replicate 8 0) :=
  ⟨by decide, by decide, by decide,
    ParseKeyFrame_reserialize ⟨2, 3, 98⟩ exampleBody 128 (by decide) (by decide) (by decide)
      rfl (by decide) (by decide)⟩

end Eapol

namespace RustEnum

/-- Witness for `generateFlexible_sentinel`: generation over `u8` succeeds with the sentinel
255 when no member has that value, and fails when a member has it. -/
theorem generateFlexible_sentinel_witness :
    generateFlexible "Color" [⟨"RED", 1, false⟩, ⟨"BLUE", 2, false⟩] 255 none =
      .ok { Name := "Color", Strictness := .flexible,
            Members := [⟨"RED", 1, false⟩, ⟨"BLUE", 2, false⟩], UnknownValueForTmpl := 255 } ∧
    generateFlexible "Color" [⟨"RED", 1, false⟩, ⟨"MAX", 255, false⟩] 255 none =
      .error .SentinelCollision :=
  ⟨rfl,
    (generateFlexible_sentinel "Color" [⟨"RED", 1, false⟩, ⟨"MAX", 255, false⟩] 255 none).2
      ⟨⟨"MAX", 255, false⟩, by simp, rfl⟩⟩

end RustEnum
